import Mathlib

/-!
# CbcHeuristicDivePseudoCost

A shallow embedding of `src/src/CbcHeuristicDivePseudoCost.cpp` (the pseudo-cost
diving heuristic of Cbc) and theorems about it.

Conventions of the embedding:

* C++ `double` values are exact rationals (`ℚ`): every arithmetic operation is
  the exact one, there is no rounding, no infinity and no NaN. The definitions
  whose name ends in `Double` are the exception: they compute lines 91 and
  105-131 in IEEE 754 binary64 arithmetic, every operation and every literal
  rounded to the nearest value with a 53-bit significand, ties to even, with an
  unbounded exponent range (no overflow, no subnormal numbers).
* C arrays are total functions from the index; `integerVariable`, `downLocks_`,
  `upLocks_`, `downArray_`, `upArray_`, `priority_` and `random` are indexed by
  the position `i` of the loop, the solver's vectors by the column number.
* A loop `for (i = 0; i < n; i++)` is a recursion on the number of iterations
  done, so the state after any prefix of the loop can be named.
* `assert(c)` aborts the run when `c` is false: a function with an assertion
  returns an `Option`, `none` standing for the abort.
* What the class reads from the model, the solver and its base class
  (`isHeuristicInteger`, `isBinary`, the lock arrays, `fillPseudoCosts`,
  `pseudoShadow`, ...) is a field of the snapshot the function is given.
-/

namespace CbcHeuristicDivePseudoCost

/-- The constant `COIN_INT_MAX` of CoinUtils, the largest `int`. -/
def COIN_INT_MAX : Int := 2147483647

/-- The constant `COIN_DBL_MAX` of CoinUtils, the largest finite `double`. -/
def COIN_DBL_MAX : ℚ := 2 ^ 1024 - 2 ^ 971

/-- An entry of `priority_`: the bit pattern `direction` and the `priority`. -/
structure PriorityType where
  direction : Nat
  priority : Int

/-- Everything `selectVariableToBranch` reads: the model's integer variables and
tolerance, the root solution, the solution under examination, the lock and
pseudo-cost arrays of the heuristic, and the optional `priority_` array. -/
structure SelectInput where
  numberIntegers : Nat
  integerVariable : Nat → Int
  isHeuristicInteger : Int → Bool
  integerTolerance : ℚ
  rootNodeLPSol : Int → ℚ
  newSolution : Int → ℚ
  downLocks : Nat → Nat
  upLocks : Nat → Nat
  downArray : Nat → ℚ
  upArray : Nat → ℚ
  isBinary : Int → Bool
  priority : Option (Nat → PriorityType)

/-- The local variables of `selectVariableToBranch` that live across iterations. -/
structure SelectState where
  bestColumn : Int
  bestRound : Int
  bestScore : ℚ
  allTriviallyRoundableSoFar : Bool
  bestPriority : Int

/-- The values of lines 80-84, before the loop. -/
def selectInit : SelectState :=
  { bestColumn := -1, bestRound := -1, bestScore := -1,
    allTriviallyRoundableSoFar := true, bestPriority := COIN_INT_MAX }

/-- The expression `value - floor(value)` of line 91. -/
def fractionOf (value : ℚ) : ℚ := value - (Int.floor value : ℚ)

/-- The test of line 93: `fabs(floor(value + 0.5) - value) > integerTolerance`. -/
def isFractional (value integerTolerance : ℚ) : Prop :=
  |((Int.floor (value + 1 / 2) : Int) : ℚ) - value| > integerTolerance

instance (value integerTolerance : ℚ) : Decidable (isFractional value integerTolerance) := by
  unfold isFractional; infer_instance

/-- The test of line 234: `fabs(floor(value + 0.5) - value) <= integerTolerance`. -/
def isIntegral (value integerTolerance : ℚ) : Prop :=
  |((Int.floor (value + 1 / 2) : Int) : ℚ) - value| ≤ integerTolerance

instance (value integerTolerance : ℚ) : Decidable (isIntegral value integerTolerance) := by
  unfold isIntegral; infer_instance

/-- Lines 96-99: the first variable locked on both sides ends the all-trivial
mode and resets the best score. -/
def resetOnLocked (downLock upLock : Nat) (st : SelectState) : SelectState :=
  if st.allTriviallyRoundableSoFar = true ∧ downLock > 0 ∧ upLock > 0 then
    { st with allTriviallyRoundableSoFar := false, bestScore := -1 }
  else st

/-- Lines 105-120: the cascade that chooses `round`. -/
def cascadeRound (allTrivial : Bool) (downLock upLock : Nat)
    (value rootValue fraction pCostDown pCostUp : ℚ) : Int :=
  if allTrivial = true ∧ downLock = 0 ∧ upLock > 0 then 1
  else if allTrivial = true ∧ downLock > 0 ∧ upLock = 0 then -1
  else if value - rootValue < -(4 / 10) then -1
  else if value - rootValue > 4 / 10 then 1
  else if fraction < 3 / 10 then -1
  else if fraction > 7 / 10 then 1
  else if pCostDown < pCostUp then -1
  else 1

/-- Lines 123-131: the score of a rounding direction, times 1000 for a binary. -/
def scoreOf (round : Int) (fraction pCostDown pCostUp : ℚ) (binary : Bool) : ℚ :=
  let score :=
    if round = 1 then fraction * (pCostDown + 1) / (pCostUp + 1)
    else (1 - fraction) * (pCostUp + 1) / (pCostDown + 1)
  if binary = true then score * 1000 else score

/-- Lines 136-137: a direction with bit 0 set forces the rounding. -/
def forcedRound (direction : Nat) (round : Int) : Int :=
  if direction &&& 1 ≠ 0 then (if direction &&& 2 = 0 then -1 else 1) else round

/-- Lines 134-149: the priority rules, then the update of the running best.
`st` is the state after lines 96-99, `round` and `score` come from lines 105-131. -/
def updateBest (priority : Option (Nat → PriorityType)) (i : Nat) (iColumn : Int)
    (round : Int) (score : ℚ) (st : SelectState) : SelectState :=
  match priority with
  | none =>
    if score > st.bestScore then
      { st with bestColumn := iColumn, bestScore := score, bestRound := round }
    else st
  | some prio =>
    let round1 := forcedRound (prio i).direction round
    let score1 := if (prio i).priority > st.bestPriority then COIN_DBL_MAX else score
    let st1 :=
      if (prio i).priority > st.bestPriority then st
      else if (prio i).priority < st.bestPriority then
        { st with bestPriority := (prio i).priority, bestScore := COIN_DBL_MAX }
      else st
    if score1 > st1.bestScore then
      { st1 with bestColumn := iColumn, bestScore := score1, bestRound := round1 }
    else st1

/-- The value of `round` after lines 105-120 at position `i`, when the flag
`allTriviallyRoundableSoFar` has the value `allTrivial` there. -/
def roundAt (m : SelectInput) (i : Nat) (allTrivial : Bool) : Int :=
  cascadeRound allTrivial (m.downLocks i) (m.upLocks i)
    (m.newSolution (m.integerVariable i)) (m.rootNodeLPSol (m.integerVariable i))
    (fractionOf (m.newSolution (m.integerVariable i))) (m.downArray i) (m.upArray i)

/-- The value of `score` after lines 123-131 at position `i`. -/
def scoreAt (m : SelectInput) (i : Nat) (allTrivial : Bool) : ℚ :=
  scoreOf (roundAt m i allTrivial) (fractionOf (m.newSolution (m.integerVariable i)))
    (m.downArray i) (m.upArray i) (m.isBinary (m.integerVariable i))

/-- One iteration of the loop of lines 85-152, for position `i`. The result is
`none` when the assertion of line 103 fails. -/
def selectStep (m : SelectInput) (i : Nat) (st : SelectState) : Option SelectState :=
  if m.isHeuristicInteger (m.integerVariable i) = false then some st
  else if isFractional (m.newSolution (m.integerVariable i)) m.integerTolerance then
    if st.allTriviallyRoundableSoFar = true ∨ (m.downLocks i > 0 ∧ m.upLocks i > 0) then
      if m.downArray i ≥ 0 ∧ m.upArray i ≥ 0 then
        some (updateBest m.priority i (m.integerVariable i)
          (roundAt m i (resetOnLocked (m.downLocks i) (m.upLocks i) st).allTriviallyRoundableSoFar)
          (scoreAt m i (resetOnLocked (m.downLocks i) (m.upLocks i) st).allTriviallyRoundableSoFar)
          (resetOnLocked (m.downLocks i) (m.upLocks i) st))
      else none
    else some st
  else some st

/-- The first `n` iterations of the loop of lines 85-152. -/
def selectLoop (m : SelectInput) : Nat → Option SelectState
  | 0 => some selectInit
  | n + 1 => (selectLoop m n).bind (selectStep m n)

/-- What `selectVariableToBranch` hands back: the two reference parameters and
the returned flag. -/
structure SelectResult where
  bestColumn : Int
  bestRound : Int
  allTriviallyRoundable : Bool
deriving DecidableEq

/-- The function `selectVariableToBranch` (lines 64-155); `none` is the abort of
the assertion of line 103. -/
def selectVariableToBranch (m : SelectInput) : Option SelectResult :=
  (selectLoop m m.numberIntegers).map fun st =>
    { bestColumn := st.bestColumn, bestRound := st.bestRound,
      allTriviallyRoundable := st.allTriviallyRoundableSoFar }

/-! ## initializeData -/

/-- What `initializeData` reads of a `CbcSimpleIntegerDynamicPseudoCost`. -/
structure DynamicPseudoCost where
  downDynamicPseudoCost : ℚ
  upDynamicPseudoCost : ℚ
  downShadowPrice : ℚ
  upShadowPrice : ℚ

/-- Everything `initializeData` reads. `fillDown` and `fillUp` are what
`fillPseudoCosts` writes into the two arrays; `objects a i` is the outcome of the
`dynamic_cast` of `objects[i]` once `pseudoShadow(a)` has run (`none` for an
object of another class). -/
structure InitInput where
  numberIntegers : Nat
  fillDown : Nat → ℚ
  fillUp : Nat → ℚ
  when_ : Int
  numberObjects : Nat
  objects : Int → Nat → Option DynamicPseudoCost

/-- The two arrays `downArray_` and `upArray_`. -/
structure PseudoCostArrays where
  downArray : Nat → ℚ
  upArray : Nat → ℚ

/-- Line 166: `(when_ > 0) ? when_ / 100 : 0`. -/
def diveOptions (when_ : Int) : Int := if when_ > 0 then when_ / 100 else 0

/-- Lines 169-172: the argument `k - 1` of `pseudoShadow`. -/
def shadowArgument (when_ : Int) : Int :=
  (if diveOptions when_ ≥ 100 then diveOptions when_ % 100 + 32
    else diveOptions when_ % 100) - 1

/-- One iteration of the loop of lines 175-190, for position `i`. -/
def initStep (m : InitInput) (i : Nat) (a : PseudoCostArrays) : PseudoCostArrays :=
  match m.objects (shadowArgument m.when_) i with
  | some obj1 =>
    { downArray := Function.update a.downArray i
        (max (max (1 / 100 * obj1.downDynamicPseudoCost) obj1.downShadowPrice)
          (1 / 1000 * obj1.upShadowPrice))
      upArray := Function.update a.upArray i
        (max (max (1 / 100 * obj1.upDynamicPseudoCost) obj1.upShadowPrice)
          (1 / 1000 * obj1.downShadowPrice)) }
  | none => a

/-- The first `n` iterations of the loop of lines 175-190. -/
def initLoop (m : InitInput) : Nat → PseudoCostArrays
  | 0 => { downArray := m.fillDown, upArray := m.fillUp }
  | n + 1 => initStep m n (initLoop m n)

/-- The function `initializeData` (lines 156-192): the two arrays it leaves. -/
def initializeData (m : InitInput) : PseudoCostArrays :=
  if diveOptions m.when_ ≠ 0 then initLoop m (min m.numberObjects m.numberIntegers)
  else { downArray := m.fillDown, upArray := m.fillUp }

/-! ## fixOtherVariables -/

/-- An entry of `candidate`. -/
structure PseudoReducedCost where
  var : Int
  pseudoRedCost : ℚ
deriving DecidableEq

/-- Everything `fixOtherVariables` reads. -/
structure FixInput where
  numberIntegers : Nat
  integerVariable : Nat → Int
  isHeuristicInteger : Int → Bool
  integerTolerance : ℚ
  lower : Int → ℚ
  upper : Int → ℚ
  reducedCost : Int → ℚ
  solution : Int → ℚ
  random : Nat → ℚ
  downArray : Nat → ℚ
  switches_ : Int

/-- The counter `cnt` and the array `candidate`; an entry that was never
written is `none`. -/
structure FixState where
  cnt : Nat
  candidate : Nat → Option PseudoReducedCost

/-- The two statements `candidate[cnt].var = ...; candidate[cnt++].pseudoRedCost = ...`. -/
def emit (st : FixState) (var : Int) (pseudoRedCost : ℚ) : FixState :=
  { cnt := st.cnt + 1
    candidate := Function.update st.candidate st.cnt
      (some { var := var, pseudoRedCost := pseudoRedCost }) }

/-- Line 208: `(switches_ & 65536) != 0`. -/
def fixGeneralIntegers (m : FixInput) : Prop := Int.land m.switches_ 65536 ≠ 0

instance (m : FixInput) : Decidable (fixGeneralIntegers m) := by
  unfold fixGeneralIntegers; infer_instance

/-- One iteration of the loop of lines 215-245, for position `i`. -/
def fixStep (m : FixInput) (i : Nat) (st : FixState) : FixState :=
  if m.isHeuristicInteger (m.integerVariable i) = false then st
  else if m.upper (m.integerVariable i) > m.lower (m.integerVariable i) then
    if m.solution (m.integerVariable i) - m.lower (m.integerVariable i) ≤ m.integerTolerance then
      emit st (m.integerVariable i)
        (max (1 / 100 * m.reducedCost (m.integerVariable i)) (m.downArray i) * m.random i)
    else if m.upper (m.integerVariable i) - m.solution (m.integerVariable i)
        ≤ m.integerTolerance then
      emit st (m.integerVariable i)
        (max (-(1 / 100) * m.reducedCost (m.integerVariable i)) (m.downArray i) * m.random i)
    else if fixGeneralIntegers m ∧
        isIntegral (m.solution (m.integerVariable i)) m.integerTolerance then
      emit st (m.integerVariable i)
        (max (-(1 / 1000000) * m.reducedCost (m.integerVariable i))
          (1 / 10000 * m.downArray i) * m.random i)
    else st
  else st

/-- The first `n` iterations of the loop of lines 215-245; `candidate` starts
with no entry written. -/
def fixLoop (m : FixInput) : Nat → FixState
  | 0 => { cnt := 0, candidate := fun _ => none }
  | n + 1 => fixStep m n (fixLoop m n)

/-- The function `fixOtherVariables` (lines 194-254): the returned count and the
array `candidate` it leaves. -/
def fixOtherVariables (m : FixInput) : FixState := fixLoop m m.numberIntegers

/-! ## Concrete inputs -/

/-- Scenario of the specification: A (fraction 0.2, costs 1 and 1, no lock) and
then B (fraction 0.8, down cost 5, up cost 1, one lock each way), neither binary,
both at their root value, no priority array. -/
def scenarioAB : SelectInput :=
  { numberIntegers := 2
    integerVariable := fun i => i
    isHeuristicInteger := fun _ => true
    integerTolerance := 1 / 1000000
    rootNodeLPSol := fun c => if c = 0 then 2 / 10 else 8 / 10
    newSolution := fun c => if c = 0 then 2 / 10 else 8 / 10
    downLocks := fun i => if i = 0 then 0 else 1
    upLocks := fun i => if i = 0 then 0 else 1
    downArray := fun i => if i = 0 then 1 else 5
    upArray := fun _ => 1
    isBinary := fun _ => false
    priority := none }

/-- Two variables with a priority array: A (column 0, priority 1) and B
(column 1, priority 10), both at 0.5 with root value 0.5, one lock each way,
pseudo-costs 0, not binary, no forced direction. -/
def twoPriorities : SelectInput :=
  { numberIntegers := 2
    integerVariable := fun i => i
    isHeuristicInteger := fun _ => true
    integerTolerance := 1 / 1000000
    rootNodeLPSol := fun _ => 1 / 2
    newSolution := fun _ => 1 / 2
    downLocks := fun _ => 1
    upLocks := fun _ => 1
    downArray := fun _ => 0
    upArray := fun _ => 0
    isBinary := fun _ => false
    priority := some fun i => { direction := 0, priority := if i = 0 then 1 else 10 } }

/-- Two variables at the integral values 1 and 0, with a priority array. -/
def allIntegral : SelectInput :=
  { numberIntegers := 2
    integerVariable := fun i => i
    isHeuristicInteger := fun _ => true
    integerTolerance := 1 / 1000000
    rootNodeLPSol := fun _ => 1 / 2
    newSolution := fun c => if c = 0 then 1 else 0
    downLocks := fun _ => 1
    upLocks := fun _ => 1
    downArray := fun _ => 0
    upArray := fun _ => 0
    isBinary := fun _ => true
    priority := some fun _ => { direction := 0, priority := 3 } }

/-- Scenario of the specification: one free variable (bounds 0 and 1) at its
lower bound, reduced cost 2, down pseudo-cost 0.05, random factor 1. -/
def atLowerBound : FixInput :=
  { numberIntegers := 1
    integerVariable := fun i => i
    isHeuristicInteger := fun _ => true
    integerTolerance := 1 / 1000000
    lower := fun _ => 0
    upper := fun _ => 1
    reducedCost := fun _ => 2
    solution := fun _ => 0
    random := fun _ => 1
    downArray := fun _ => 1 / 20
    switches_ := 0 }

/-- Three variables: column 0 is fixed (both bounds 0) and sits at its bound,
column 1 is free (bounds 0 and 1) at its upper bound, column 2 is free (bounds 0
and 3) at the interior integral value 2; general-integer fixing is on. -/
def oneFixedOneFree : FixInput :=
  { numberIntegers := 3
    integerVariable := fun i => i
    isHeuristicInteger := fun _ => true
    integerTolerance := 1 / 1000000
    lower := fun _ => 0
    upper := fun c => if c = 0 then 0 else if c = 1 then 1 else 3
    reducedCost := fun _ => -3
    solution := fun c => if c = 0 then 0 else if c = 1 then 1 else 2
    random := fun _ => 2
    downArray := fun _ => 1 / 100
    switches_ := 65536 }

/-- The scoring rule of `fixOtherVariables` in the words of its specification,
for a free heuristic integer at position `i`: the first matching of three
branches gives the score, and no branch means the variable is not a candidate. -/
def specFixingScore (m : FixInput) (i : Nat) : Option ℚ :=
  if m.solution (m.integerVariable i) - m.lower (m.integerVariable i) ≤ m.integerTolerance then
    some (max (1 / 100 * m.reducedCost (m.integerVariable i)) (m.downArray i) * m.random i)
  else if m.upper (m.integerVariable i) - m.solution (m.integerVariable i)
      ≤ m.integerTolerance then
    some (max (-(1 / 100) * m.reducedCost (m.integerVariable i)) (m.downArray i) * m.random i)
  else if fixGeneralIntegers m ∧
      isIntegral (m.solution (m.integerVariable i)) m.integerTolerance then
    some (max (-(1 / 1000000) * m.reducedCost (m.integerVariable i))
      (1 / 10000 * m.downArray i) * m.random i)
  else none

/-- An extended-mode input (`when_ = 100`): three integers, two objects, of
which only the first carries dynamic pseudo-cost data (dynamic costs 50 and 10,
shadow prices 0.2 and 1000); `fillPseudoCosts` writes 7 and 9 everywhere. -/
def extendedMode : InitInput :=
  { numberIntegers := 3
    fillDown := fun _ => 7
    fillUp := fun _ => 9
    when_ := 100
    numberObjects := 2
    objects := fun _ i =>
      if i = 0 then
        some { downDynamicPseudoCost := 50, upDynamicPseudoCost := 10,
               downShadowPrice := 2 / 10, upShadowPrice := 1000 }
      else none }

/-- Position `i` holds a heuristic integer whose value is fractional beyond the
tolerance (the variables that pass lines 87 and 93). -/
def fractionalAt (m : SelectInput) (i : Nat) : Prop :=
  m.isHeuristicInteger (m.integerVariable i) = true ∧
    isFractional (m.newSolution (m.integerVariable i)) m.integerTolerance

instance (m : SelectInput) (i : Nat) : Decidable (fractionalAt m i) := by
  unfold fractionalAt; infer_instance

/-- Position `i` holds a fractional heuristic integer with locks on both sides. -/
def lockedFractionalAt (m : SelectInput) (i : Nat) : Prop :=
  fractionalAt m i ∧ m.downLocks i > 0 ∧ m.upLocks i > 0

instance (m : SelectInput) (i : Nat) : Decidable (lockedFractionalAt m i) := by
  unfold lockedFractionalAt; infer_instance

/-- The condition of the assertion of line 103 at every position below `n`. -/
def nonNegCosts (m : SelectInput) (n : Nat) : Prop :=
  ∀ i, i < n → 0 ≤ m.downArray i ∧ 0 ≤ m.upArray i

instance (m : SelectInput) (n : Nat) : Decidable (nonNegCosts m n) := by
  unfold nonNegCosts; infer_instance

/-- An extended-mode input (`when_ = 100`) with negative shadow prices: two
integers, two objects, the first with dynamic costs 0 and 3 and shadow prices -5
and -7; `fillPseudoCosts` writes 0 and 2 everywhere. -/
def negativeShadow : InitInput :=
  { numberIntegers := 2
    fillDown := fun _ => 0
    fillUp := fun _ => 2
    when_ := 100
    numberObjects := 2
    objects := fun _ i =>
      if i = 0 then
        some { downDynamicPseudoCost := 0, upDynamicPseudoCost := 3,
               downShadowPrice := -5, upShadowPrice := -7 }
      else none }

/-- A plain-mode input: `when_ = 99`, with an object that carries dynamic data. -/
def plainMode : InitInput :=
  { numberIntegers := 2
    fillDown := fun i => i + 1
    fillUp := fun i => i + 3
    when_ := 99
    numberObjects := 2
    objects := fun _ _ =>
      some { downDynamicPseudoCost := 500, upDynamicPseudoCost := 700,
             downShadowPrice := 11, upShadowPrice := 13 } }

/-- One variable at 0.2 (root value 0.2) with `downLocks = 0` and `upLocks = 1`,
pseudo-costs 0, not binary, no priority array. -/
def upLockedOnly : SelectInput :=
  { numberIntegers := 1
    integerVariable := fun i => i
    isHeuristicInteger := fun _ => true
    integerTolerance := 1 / 1000000
    rootNodeLPSol := fun _ => 2 / 10
    newSolution := fun _ => 2 / 10
    downLocks := fun _ => 0
    upLocks := fun _ => 1
    downArray := fun _ => 0
    upArray := fun _ => 0
    isBinary := fun _ => false
    priority := none }

/-- One variable at 0.8 (root value 0.8) with `downLocks = 1` and `upLocks = 0`,
pseudo-costs 0, not binary, no priority array. -/
def downLockedOnly : SelectInput :=
  { numberIntegers := 1
    integerVariable := fun i => i
    isHeuristicInteger := fun _ => true
    integerTolerance := 1 / 1000000
    rootNodeLPSol := fun _ => 8 / 10
    newSolution := fun _ => 8 / 10
    downLocks := fun _ => 1
    upLocks := fun _ => 0
    downArray := fun _ => 0
    upArray := fun _ => 0
    isBinary := fun _ => false
    priority := none }

/-- Scenario of the specification: a single binary variable at 0.5 (root value
0.5), both pseudo-costs 0, no lock, no priority array. -/
def singleBinary : SelectInput :=
  { numberIntegers := 1
    integerVariable := fun i => i
    isHeuristicInteger := fun _ => true
    integerTolerance := 1 / 1000000
    rootNodeLPSol := fun _ => 1 / 2
    newSolution := fun _ => 1 / 2
    downLocks := fun _ => 0
    upLocks := fun _ => 0
    downArray := fun _ => 0
    upArray := fun _ => 0
    isBinary := fun _ => true
    priority := none }

/-- The direction cascade in the words of the specification, for a variable to
which the one-sided-lock rule does not apply: the first matching rule wins, and
equal pseudo-costs give up. -/
def specDirection (value rootValue fraction downPseudoCost upPseudoCost : ℚ) : Int :=
  if value - rootValue < -(4 / 10) then -1
  else if value - rootValue > 4 / 10 then 1
  else if fraction < 3 / 10 then -1
  else if fraction > 7 / 10 then 1
  else if downPseudoCost < upPseudoCost then -1
  else 1

/-- Three variables at 0.5 (root value 0.5) with a priority array, pseudo-costs
0, not binary, no forced direction: A (column 0, no lock, priority 5), B (column
1, one lock each way, priority 5), C (column 2, one lock each way, priority 10). -/
def threePriorities : SelectInput :=
  { numberIntegers := 3
    integerVariable := fun i => i
    isHeuristicInteger := fun _ => true
    integerTolerance := 1 / 1000000
    rootNodeLPSol := fun _ => 1 / 2
    newSolution := fun _ => 1 / 2
    downLocks := fun i => if i = 0 then 0 else 1
    upLocks := fun i => if i = 0 then 0 else 1
    downArray := fun _ => 0
    upArray := fun _ => 0
    isBinary := fun _ => false
    priority := some fun i => { direction := 0, priority := if i = 2 then 10 else 5 } }

/-- Two variables at 0.2 (root value 0.2) with a priority array, both of
priority 5, pseudo-costs 0, not binary: A (column 0, no lock, direction 0) and B
(column 1, one lock each way, direction 3: bits 0 and 1 set). -/
def forcedUp : SelectInput :=
  { numberIntegers := 2
    integerVariable := fun i => i
    isHeuristicInteger := fun _ => true
    integerTolerance := 1 / 1000000
    rootNodeLPSol := fun _ => 2 / 10
    newSolution := fun _ => 2 / 10
    downLocks := fun i => if i = 0 then 0 else 1
    upLocks := fun i => if i = 0 then 0 else 1
    downArray := fun _ => 0
    upArray := fun _ => 0
    isBinary := fun _ => false
    priority := some fun i => { direction := if i = 0 then 0 else 3, priority := 5 } }

/-- Two fractional variables at 0.5 without any lock, with a priority array:
priorities 3 and 1, pseudo-costs 0, not binary, no forced direction. -/
def trivialWithPriorities : SelectInput :=
  { numberIntegers := 2
    integerVariable := fun i => i
    isHeuristicInteger := fun _ => true
    integerTolerance := 1 / 1000000
    rootNodeLPSol := fun _ => 1 / 2
    newSolution := fun _ => 1 / 2
    downLocks := fun _ => 0
    upLocks := fun _ => 0
    downArray := fun _ => 0
    upArray := fun _ => 0
    isBinary := fun _ => false
    priority := some fun i => { direction := 0, priority := if i = 0 then 3 else 1 } }

/-- Position `i` emits a candidate, in the words of the specification of
`fixOtherVariables`: it holds a heuristic integer that is free and matches one
of the three scoring branches. -/
def isCandidatePosition (m : FixInput) (i : Nat) : Prop :=
  m.isHeuristicInteger (m.integerVariable i) = true ∧
    m.upper (m.integerVariable i) > m.lower (m.integerVariable i) ∧
    (m.solution (m.integerVariable i) - m.lower (m.integerVariable i) ≤ m.integerTolerance ∨
      m.upper (m.integerVariable i) - m.solution (m.integerVariable i) ≤ m.integerTolerance ∨
      (fixGeneralIntegers m ∧
        isIntegral (m.solution (m.integerVariable i)) m.integerTolerance))

instance (m : FixInput) (i : Nat) : Decidable (isCandidatePosition m i) := by
  unfold isCandidatePosition; infer_instance

/-- The columns `candidate[0].var, ..., candidate[cnt - 1].var` of a state, an
entry that was never written giving `none`. -/
def candidateColumns (st : FixState) : List (Option Int) :=
  (List.range st.cnt).map fun k => (st.candidate k).map fun c => c.var

/-- The columns of the candidate positions below `n`, in the order of the
positions. -/
def expectedColumns (m : FixInput) (n : Nat) : List Int :=
  ((List.range n).filter fun i => decide (isCandidatePosition m i)).map m.integerVariable

/-- Position `j` is in the competitive set for the flag value `allTrivial`: a
fractional heuristic integer when the flag is true, a fractional heuristic
integer with locks on both sides when it is false. -/
def competitiveAt (m : SelectInput) (allTrivial : Bool) (j : Nat) : Prop :=
  if allTrivial = true then fractionalAt m j else lockedFractionalAt m j

instance (m : SelectInput) (a : Bool) (j : Nat) : Decidable (competitiveAt m a j) := by
  unfold competitiveAt; infer_instance

/-- Position `i` is the first-index maximiser of the score over the competitive
positions below `n`: it is competitive, no competitive position below `n` has a
larger score, and every competitive position before `i` has a smaller one. -/
def isFirstMaximiser (m : SelectInput) (allTrivial : Bool) (n i : Nat) : Prop :=
  i < n ∧ competitiveAt m allTrivial i ∧
    (∀ j, j < n → competitiveAt m allTrivial j →
      scoreAt m j allTrivial ≤ scoreAt m i allTrivial) ∧
    (∀ j, j < i → competitiveAt m allTrivial j →
      scoreAt m j allTrivial < scoreAt m i allTrivial)

/-- The running best of a state after `n` iterations without priority array:
either no fractional variable was met and the state holds the initial values, or
the best column, round and score are those of the first-index maximiser. -/
def bestIsFirstMaximiser (m : SelectInput) (n : Nat) (st : SelectState) : Prop :=
  (st.allTriviallyRoundableSoFar = true ∧ st.bestScore = -1 ∧ st.bestColumn = -1 ∧
      st.bestRound = -1 ∧ ∀ j, j < n → ¬ fractionalAt m j) ∨
    ∃ i, isFirstMaximiser m st.allTriviallyRoundableSoFar n i ∧
      st.bestColumn = m.integerVariable i ∧
      st.bestRound = roundAt m i st.allTriviallyRoundableSoFar ∧
      st.bestScore = scoreAt m i st.allTriviallyRoundableSoFar

/-- Three variables without priority array, not binary, pseudo-costs 0, each at
its root value: column 0 at 0.5 without lock, columns 1 and 2 at 0.8 with one
lock each way. -/
def tiedScores : SelectInput :=
  { numberIntegers := 3
    integerVariable := fun i => i
    isHeuristicInteger := fun _ => true
    integerTolerance := 1 / 1000000
    rootNodeLPSol := fun c => if c = 0 then 1 / 2 else 8 / 10
    newSolution := fun c => if c = 0 then 1 / 2 else 8 / 10
    downLocks := fun i => if i = 0 then 0 else 1
    upLocks := fun i => if i = 0 then 0 else 1
    downArray := fun _ => 0
    upArray := fun _ => 0
    isBinary := fun _ => false
    priority := none }

/-! ## Lines 91 and 105-131 in double arithmetic -/

/-- The integer nearest to `t`, the even one of the two when `t` is half-way. -/
def roundHalfEven (t : ℚ) : Int :=
  if t - (Int.floor t : ℚ) < 1 / 2 then Int.floor t
  else if t - (Int.floor t : ℚ) > 1 / 2 then Int.floor t + 1
  else if Int.floor t % 2 = 0 then Int.floor t
  else Int.floor t + 1

/-- The binary64 value nearest to `q`, ties to even: `q` is scaled by its unit in
the last place `2 ^ (floor(log2 |q|) - 52)`, rounded to an integer of at most 53
bits and scaled back. The exponent range is unbounded. -/
def roundToDouble (q : ℚ) : ℚ :=
  if q = 0 then 0
  else if q < 0 then
    -((roundHalfEven (-q / 2 ^ (Int.log 2 (-q) - 52)) : ℚ) * 2 ^ (Int.log 2 (-q) - 52))
  else (roundHalfEven (q / 2 ^ (Int.log 2 q - 52)) : ℚ) * 2 ^ (Int.log 2 q - 52)

/-- Line 91 in double arithmetic: `value - floor(value)`, the subtraction rounded. -/
def fractionOfDouble (value : ℚ) : ℚ := roundToDouble (value - (Int.floor value : ℚ))

/-- Lines 105-120 in double arithmetic: the subtraction `value - rootValue` is
rounded and the literals `0.4`, `0.3` and `0.7` are the binary64 values nearest
to them; comparisons of doubles are exact. -/
def cascadeRoundDouble (allTrivial : Bool) (downLock upLock : Nat)
    (value rootValue fraction pCostDown pCostUp : ℚ) : Int :=
  if allTrivial = true ∧ downLock = 0 ∧ upLock > 0 then 1
  else if allTrivial = true ∧ downLock > 0 ∧ upLock = 0 then -1
  else if roundToDouble (value - rootValue) < -(roundToDouble (4 / 10)) then -1
  else if roundToDouble (value - rootValue) > roundToDouble (4 / 10) then 1
  else if fraction < roundToDouble (3 / 10) then -1
  else if fraction > roundToDouble (7 / 10) then 1
  else if pCostDown < pCostUp then -1
  else 1

/-- Lines 123-131 in double arithmetic: each addition, subtraction,
multiplication and division is rounded, in the order C++ evaluates them
(`fraction * (pCostDown + 1.0)` first, then the division). -/
def scoreOfDouble (round : Int) (fraction pCostDown pCostUp : ℚ) (binary : Bool) : ℚ :=
  let score :=
    if round = 1 then
      roundToDouble (roundToDouble (fraction * roundToDouble (pCostDown + 1))
        / roundToDouble (pCostUp + 1))
    else
      roundToDouble (roundToDouble (roundToDouble (1 - fraction) * roundToDouble (pCostUp + 1))
        / roundToDouble (pCostDown + 1))
  if binary = true then roundToDouble (score * 1000) else score

/-- The value of `round` after lines 105-120 at position `i`, in double
arithmetic. -/
def roundAtDouble (m : SelectInput) (i : Nat) (allTrivial : Bool) : Int :=
  cascadeRoundDouble allTrivial (m.downLocks i) (m.upLocks i)
    (m.newSolution (m.integerVariable i)) (m.rootNodeLPSol (m.integerVariable i))
    (fractionOfDouble (m.newSolution (m.integerVariable i))) (m.downArray i) (m.upArray i)

/-- The value of `score` after lines 123-131 at position `i`, in double
arithmetic. -/
def scoreAtDouble (m : SelectInput) (i : Nat) (allTrivial : Bool) : ℚ :=
  scoreOfDouble (roundAtDouble m i allTrivial)
    (fractionOfDouble (m.newSolution (m.integerVariable i)))
    (m.downArray i) (m.upArray i) (m.isBinary (m.integerVariable i))

/-- One variable at 0.75 (root value 0.75) with one lock each way, down
pseudo-cost 1, up pseudo-cost 1, not binary, no priority array; every value is a
binary64 number. -/
def dyadicInput : SelectInput :=
  { numberIntegers := 1
    integerVariable := fun i => i
    isHeuristicInteger := fun _ => true
    integerTolerance := 1 / 1048576
    rootNodeLPSol := fun _ => 3 / 4
    newSolution := fun _ => 3 / 4
    downLocks := fun _ => 1
    upLocks := fun _ => 1
    downArray := fun _ => 1
    upArray := fun _ => 1
    isBinary := fun _ => false
    priority := none }

/-! ## Lemmas on the selection loop -/

theorem updateBest_allTrivial (p : Option (Nat → PriorityType)) (i : Nat) (c : Int)
    (round : Int) (score : ℚ) (st : SelectState) :
    (updateBest p i c round score st).allTriviallyRoundableSoFar
      = st.allTriviallyRoundableSoFar := by
  cases p with
  | none => simp only [updateBest]; split <;> rfl
  | some prio =>
    simp only [updateBest]
    split_ifs <;> rfl

theorem resetOnLocked_allTrivial_false (d u : Nat) (st : SelectState) :
    (resetOnLocked d u st).allTriviallyRoundableSoFar = false ↔
      (st.allTriviallyRoundableSoFar = false ∨ (d > 0 ∧ u > 0)) := by
  unfold resetOnLocked
  split_ifs with h
  · simp [h.2.1, h.2.2]
  · constructor
    · intro h1; exact Or.inl h1
    · rintro (h1 | h1)
      · exact h1
      · by_contra h2
        exact h ⟨by simpa using h2, h1.1, h1.2⟩

/-- One iteration turns the flag off exactly when it was off already or the
position holds a fractional variable locked on both sides. -/
theorem selectStep_allTrivial_false (m : SelectInput) (i : Nat) (st st1 : SelectState)
    (h : selectStep m i st = some st1) :
    st1.allTriviallyRoundableSoFar = false ↔
      (st.allTriviallyRoundableSoFar = false ∨ lockedFractionalAt m i) := by
  simp only [selectStep] at h
  simp only [lockedFractionalAt, fractionalAt]
  split_ifs at h with h1 h2 h3 h4
  · cases h; simp [h1]
  · cases h
    rw [updateBest_allTrivial, resetOnLocked_allTrivial_false]
    have h1' : m.isHeuristicInteger (m.integerVariable i) = true := by simpa using h1
    simp [h1', h2]
  · cases h
    have h5 : st.allTriviallyRoundableSoFar = false := by
      by_contra h6; exact h3 (Or.inl (by simpa using h6))
    simp [h5]
  · cases h
    simp [h2]

/-- The flag after `n` iterations. -/
theorem selectLoop_allTrivial_false (m : SelectInput) :
    ∀ (n : Nat) (st : SelectState), selectLoop m n = some st →
      (st.allTriviallyRoundableSoFar = false ↔ ∃ i, i < n ∧ lockedFractionalAt m i) := by
  intro n
  induction n with
  | zero =>
    intro st h
    simp only [selectLoop, Option.some.injEq] at h
    subst h
    simp [selectInit]
  | succ n ih =>
    intro st h
    simp only [selectLoop] at h
    cases hn : selectLoop m n with
    | none => simp [hn] at h
    | some st0 =>
      rw [hn] at h
      simp only [Option.some_bind] at h
      rw [selectStep_allTrivial_false m n st0 st h, ih st0 hn]
      constructor
      · rintro (⟨j, hj, hl⟩ | hl)
        · exact ⟨j, Nat.lt_succ_of_lt hj, hl⟩
        · exact ⟨n, Nat.lt_succ_self n, hl⟩
      · rintro ⟨j, hj, hl⟩
        rcases Nat.lt_succ_iff_lt_or_eq.mp hj with hlt | heq
        · exact Or.inl ⟨j, hlt, hl⟩
        · exact Or.inr (heq ▸ hl)

/-- An iteration whose pseudo-costs are non-negative does not abort. -/
theorem selectStep_isSome (m : SelectInput) (i : Nat) (st : SelectState)
    (h : 0 ≤ m.downArray i ∧ 0 ≤ m.upArray i) : ∃ st1, selectStep m i st = some st1 := by
  simp only [selectStep, ge_iff_le, h, and_self, if_true]
  split_ifs <;> exact ⟨_, rfl⟩

/-- With non-negative pseudo-costs the loop runs to its end. -/
theorem selectLoop_isSome (m : SelectInput) :
    ∀ n : Nat, nonNegCosts m n → ∃ st, selectLoop m n = some st := by
  intro n
  induction n with
  | zero => intro _; exact ⟨_, rfl⟩
  | succ n ih =>
    intro h
    obtain ⟨st0, h0⟩ := ih (fun i hi => h i (Nat.lt_succ_of_lt hi))
    obtain ⟨st1, h1⟩ := selectStep_isSome m n st0 (h n (Nat.lt_succ_self n))
    exact ⟨st1, by simp [selectLoop, h0, h1]⟩

theorem selectVariableToBranch_eq_some (m : SelectInput) (r : SelectResult)
    (h : selectVariableToBranch m = some r) :
    ∃ st, selectLoop m m.numberIntegers = some st ∧ r.bestColumn = st.bestColumn ∧
      r.bestRound = st.bestRound ∧ r.allTriviallyRoundable = st.allTriviallyRoundableSoFar := by
  unfold selectVariableToBranch at h
  cases hl : selectLoop m m.numberIntegers with
  | none => simp [hl] at h
  | some st =>
    rw [hl] at h
    simp only [Option.map_some', Option.some.injEq] at h
    subst h
    exact ⟨st, rfl, rfl, rfl, rfl⟩

theorem selectVariableToBranch_isSome (m : SelectInput) (h : nonNegCosts m m.numberIntegers) :
    ∃ r, selectVariableToBranch m = some r := by
  obtain ⟨st, hst⟩ := selectLoop_isSome m m.numberIntegers h
  exact ⟨_, by rw [selectVariableToBranch, hst]; rfl⟩

/-! ## Claims -/

/-- C1: whenever `selectVariableToBranch` returns, with or without a priority
array, it returns false exactly when some heuristic integer that is fractional
beyond the tolerance has `downLocks > 0` and `upLocks > 0`, and true otherwise;
and it does return when the asserted pseudo-costs are non-negative. -/
theorem c1_returns_false_iff_locked_fractional (m : SelectInput) :
    (∀ r, selectVariableToBranch m = some r →
      ((r.allTriviallyRoundable = false ↔
          ∃ i, i < m.numberIntegers ∧ lockedFractionalAt m i) ∧
        (r.allTriviallyRoundable = true ↔
          ¬ ∃ i, i < m.numberIntegers ∧ lockedFractionalAt m i))) ∧
    (nonNegCosts m m.numberIntegers → ∃ r, selectVariableToBranch m = some r) := by
  refine ⟨?_, selectVariableToBranch_isSome m⟩
  intro r hr
  obtain ⟨st, hst, -, -, hflag⟩ := selectVariableToBranch_eq_some m r hr
  have key := selectLoop_allTrivial_false m m.numberIntegers st hst
  rw [hflag]
  refine ⟨key, ?_⟩
  rw [← key]
  simp

/-- C1 at the scenario A, B: the run returns false, and position 1 (B) is the
fractional variable locked on both sides. -/
theorem c1_witness :
    selectVariableToBranch scenarioAB
        = some { bestColumn := 1, bestRound := 1, allTriviallyRoundable := false } ∧
      ∃ i, i < scenarioAB.numberIntegers ∧ lockedFractionalAt scenarioAB i :=
  have h : selectVariableToBranch scenarioAB
      = some { bestColumn := 1, bestRound := 1, allTriviallyRoundable := false } := by decide!
  ⟨h, ((c1_returns_false_iff_locked_fractional scenarioAB).1 _ h).1.mp rfl⟩

/-- C2, on the code: with a priority array, A (priority 1) and B (priority 10)
both fractional and locked on both sides, A has the strictly better priority and
yet nothing is selected: `bestColumn` is -1, not the column 0 of A. -/
theorem c2_better_priority_not_selected :
    (∀ i, i < twoPriorities.numberIntegers → lockedFractionalAt twoPriorities i) ∧
      selectVariableToBranch twoPriorities
        = some { bestColumn := -1, bestRound := -1, allTriviallyRoundable := false } := by
  decide!

/-- When no position below `n` holds a fractional heuristic integer, the first
`n` iterations leave the initial state. -/
theorem selectLoop_no_fractional (m : SelectInput) :
    ∀ n : Nat, (∀ i, i < n → ¬ fractionalAt m i) → selectLoop m n = some selectInit := by
  intro n
  induction n with
  | zero => intro _; rfl
  | succ n ih =>
    intro h
    have hn := h n (Nat.lt_succ_self n)
    simp only [selectLoop, ih (fun i hi => h i (Nat.lt_succ_of_lt hi)), Option.some_bind,
      selectStep]
    simp only [fractionalAt, not_and] at hn
    by_cases h1 : m.isHeuristicInteger (m.integerVariable n) = false
    · simp [h1]
    · have h2 := hn (by simpa using h1)
      simp [h1, h2]

/-- C3: when no heuristic integer is fractional beyond the tolerance,
`selectVariableToBranch` returns, with `bestColumn = -1`, `bestRound = -1` and
the value true, with or without a priority array. -/
theorem c3_no_fractional_gives_sentinel (m : SelectInput)
    (h : ∀ i, i < m.numberIntegers → ¬ fractionalAt m i) :
    selectVariableToBranch m
      = some { bestColumn := -1, bestRound := -1, allTriviallyRoundable := true } := by
  rw [selectVariableToBranch, selectLoop_no_fractional m m.numberIntegers h]
  rfl

/-- C3 at two variables with the integral values 1 and 0 and a priority array. -/
theorem c3_witness :
    selectVariableToBranch allIntegral
      = some { bestColumn := -1, bestRound := -1, allTriviallyRoundable := true } :=
  c3_no_fractional_gives_sentinel allIntegral (by decide!)

/-! ## Lemmas on the fixing loop -/

/-- An iteration either leaves the state or emits one candidate, whose column
is a free heuristic integer. -/
theorem fixStep_cases (m : FixInput) (i : Nat) (st : FixState) :
    fixStep m i st = st ∨
      ∃ x, fixStep m i st = emit st (m.integerVariable i) x ∧
        m.isHeuristicInteger (m.integerVariable i) = true ∧
        m.upper (m.integerVariable i) > m.lower (m.integerVariable i) := by
  unfold fixStep
  split_ifs with h1 h2 h3 h4 h5
  · exact Or.inl rfl
  · exact Or.inr ⟨_, rfl, by simpa using h1, h2⟩
  · exact Or.inr ⟨_, rfl, by simpa using h1, h2⟩
  · exact Or.inr ⟨_, rfl, by simpa using h1, h2⟩
  · exact Or.inl rfl
  · exact Or.inl rfl

/-- After `n` iterations the count is at most `n`, and the written entries of
`candidate` are exactly those below the count. -/
theorem fixLoop_written (m : FixInput) :
    ∀ n : Nat, (fixLoop m n).cnt ≤ n ∧
      ∀ k, ((fixLoop m n).candidate k).isSome = true ↔ k < (fixLoop m n).cnt := by
  intro n
  induction n with
  | zero => simp [fixLoop]
  | succ n ih =>
    obtain ⟨ih1, ih2⟩ := ih
    simp only [fixLoop]
    rcases fixStep_cases m n (fixLoop m n) with h | ⟨x, h, -, -⟩
    · rw [h]
      exact ⟨Nat.le_succ_of_le ih1, ih2⟩
    · rw [h]
      refine ⟨Nat.succ_le_succ ih1, ?_⟩
      intro k
      simp only [emit]
      by_cases hk : k = (fixLoop m n).cnt
      · subst hk
        simp
      · rw [Function.update_noteq hk, ih2 k]
        omega

/-- Every written entry of `candidate` holds the column of a free heuristic
integer scanned by the loop. -/
theorem fixLoop_candidate_free (m : FixInput) :
    ∀ (n k : Nat) (c : PseudoReducedCost), (fixLoop m n).candidate k = some c →
      ∃ i, i < n ∧ c.var = m.integerVariable i ∧ m.isHeuristicInteger c.var = true ∧
        m.upper c.var > m.lower c.var := by
  intro n
  induction n with
  | zero => intro k c h; simp [fixLoop] at h
  | succ n ih =>
    intro k c h
    simp only [fixLoop] at h
    rcases fixStep_cases m n (fixLoop m n) with h1 | ⟨x, h1, h2, h3⟩
    · rw [h1] at h
      obtain ⟨i, hi, hc⟩ := ih k c h
      exact ⟨i, Nat.lt_succ_of_lt hi, hc⟩
    · rw [h1] at h
      simp only [emit] at h
      by_cases hk : k = (fixLoop m n).cnt
      · subst hk
        rw [Function.update_same] at h
        cases h
        exact ⟨n, Nat.lt_succ_self n, rfl, h2, h3⟩
      · rw [Function.update_noteq hk] at h
        obtain ⟨i, hi, hc⟩ := ih k c h
        exact ⟨i, Nat.lt_succ_of_lt hi, hc⟩

/-- An entry below the count is not written again by a later iteration. -/
theorem fixLoop_candidate_stable (m : FixInput) (n0 k : Nat) (hk : k < (fixLoop m n0).cnt) :
    ∀ d : Nat, k < (fixLoop m (n0 + d)).cnt ∧
      (fixLoop m (n0 + d)).candidate k = (fixLoop m n0).candidate k := by
  intro d
  induction d with
  | zero => exact ⟨hk, rfl⟩
  | succ d ih =>
    obtain ⟨ih1, ih2⟩ := ih
    have hs : fixLoop m (n0 + (d + 1)) = fixStep m (n0 + d) (fixLoop m (n0 + d)) := rfl
    rw [hs]
    rcases fixStep_cases m (n0 + d) (fixLoop m (n0 + d)) with h | ⟨x, h, -, -⟩
    · rw [h]; exact ⟨ih1, ih2⟩
    · rw [h]
      simp only [emit]
      refine ⟨Nat.lt_succ_of_lt ih1, ?_⟩
      rw [Function.update_noteq (Nat.ne_of_lt ih1), ih2]

/-- The score the code emits at a free heuristic integer is the one of the
specification, and the code emits nothing when the specification has no score. -/
theorem fixStep_eq_spec (m : FixInput) (i : Nat) (st : FixState)
    (h1 : m.isHeuristicInteger (m.integerVariable i) = true)
    (h2 : m.upper (m.integerVariable i) > m.lower (m.integerVariable i)) :
    fixStep m i st =
      match specFixingScore m i with
      | some x => emit st (m.integerVariable i) x
      | none => st := by
  unfold fixStep specFixingScore
  simp only [h1, h2, if_true, Bool.true_eq_false, if_false]
  split_ifs <;> rfl

/-! ## Claims on fixOtherVariables -/

/-- C4: the count returned by `fixOtherVariables` is at most `numberIntegers`,
and the entries of `candidate` that were written are exactly those at the
indices below the count, hence below `numberIntegers`. -/
theorem c4_count_bounded_and_equals_written (m : FixInput) :
    (fixOtherVariables m).cnt ≤ m.numberIntegers ∧
      (∀ k, ((fixOtherVariables m).candidate k).isSome = true ↔ k < (fixOtherVariables m).cnt) ∧
      (∀ k, ((fixOtherVariables m).candidate k).isSome = true → k < m.numberIntegers) := by
  obtain ⟨h1, h2⟩ := fixLoop_written m m.numberIntegers
  exact ⟨h1, h2, fun k hk => Nat.lt_of_lt_of_le ((h2 k).mp hk) h1⟩

/-- C5: every candidate emitted by `fixOtherVariables` holds the column of a
scanned heuristic integer with `upper > lower`; so no column with equal bounds
is emitted. -/
theorem c5_candidates_are_free (m : FixInput) (k : Nat) (c : PseudoReducedCost)
    (h : (fixOtherVariables m).candidate k = some c) :
    (∃ i, i < m.numberIntegers ∧ c.var = m.integerVariable i) ∧
      m.isHeuristicInteger c.var = true ∧ m.upper c.var > m.lower c.var ∧
      m.upper c.var ≠ m.lower c.var := by
  obtain ⟨i, hi, hc, h1, h2⟩ := fixLoop_candidate_free m m.numberIntegers k c h
  exact ⟨⟨i, hi, hc⟩, h1, h2, ne_of_gt h2⟩

/-- C5 at three variables, the first fixed at its bound: two candidates are
emitted, for the free columns 1 and 2, and none for the fixed column 0. -/
theorem c5_witness :
    (fixOtherVariables oneFixedOneFree).cnt = 2 ∧
      (fixOtherVariables oneFixedOneFree).candidate 0
        = some { var := 1, pseudoRedCost := 3 / 50 } ∧
      oneFixedOneFree.upper 1 > oneFixedOneFree.lower 1 :=
  have h : (fixOtherVariables oneFixedOneFree).candidate 0
      = some { var := 1, pseudoRedCost := 3 / 50 } := by decide!
  ⟨by decide!, h, (c5_candidates_are_free oneFixedOneFree 0 _ h).2.2.1⟩

/-- C6: at a scanned free heuristic integer `i`, the loop emits what the
three-branch rule of the specification gives, first matching branch winning: when
the rule has a score, the entry at the count reached before position `i` is the
column of `i` with that score, in the final array too, and the count grows by
one; when no branch matches, the iteration writes nothing. -/
theorem c6_score_follows_three_branch_rule (m : FixInput) (i : Nat)
    (hi : i < m.numberIntegers)
    (h1 : m.isHeuristicInteger (m.integerVariable i) = true)
    (h2 : m.upper (m.integerVariable i) > m.lower (m.integerVariable i)) :
    match specFixingScore m i with
    | some x =>
      (fixOtherVariables m).candidate (fixLoop m i).cnt
          = some { var := m.integerVariable i, pseudoRedCost := x } ∧
        (fixLoop m (i + 1)).cnt = (fixLoop m i).cnt + 1
    | none => fixLoop m (i + 1) = fixLoop m i := by
  have hs : fixLoop m (i + 1) = fixStep m i (fixLoop m i) := rfl
  have hstep := fixStep_eq_spec m i (fixLoop m i) h1 h2
  cases hx : specFixingScore m i with
  | none =>
    rw [hx] at hstep
    simp only [hs, hstep]
  | some x =>
    rw [hx] at hstep
    simp only
    have hcnt : (fixLoop m (i + 1)).cnt = (fixLoop m i).cnt + 1 := by
      rw [hs, hstep]; rfl
    have hcand : (fixLoop m (i + 1)).candidate (fixLoop m i).cnt
        = some { var := m.integerVariable i, pseudoRedCost := x } := by
      rw [hs, hstep]; simp [emit]
    refine ⟨?_, hcnt⟩
    have hlt : (fixLoop m i).cnt < (fixLoop m (i + 1)).cnt := by omega
    have hst := (fixLoop_candidate_stable m (i + 1) _ hlt (m.numberIntegers - (i + 1))).2
    have hn : i + 1 + (m.numberIntegers - (i + 1)) = m.numberIntegers := by omega
    rw [hn] at hst
    rw [fixOtherVariables, hst, hcand]

/-- C6 at the scenario of the specification: at the lower bound with reduced
cost 2, down pseudo-cost 0.05 and random factor 1, the emitted score is 0.05. -/
theorem c6_witness :
    specFixingScore atLowerBound 0 = some (1 / 20) ∧
      (fixOtherVariables atLowerBound).candidate 0
        = some { var := 0, pseudoRedCost := 1 / 20 } ∧
      (fixOtherVariables atLowerBound).cnt = 1 := by
  have hspec : specFixingScore atLowerBound 0 = some (1 / 20) := by decide!
  have h := c6_score_follows_three_branch_rule atLowerBound 0 (by decide) (by decide)
    (by decide!)
  rw [hspec] at h
  exact ⟨hspec, h.1, h.2⟩

/-! ## Scores and directions -/

theorem fractionOf_nonneg (v : ℚ) : 0 ≤ fractionOf v := by
  unfold fractionOf
  exact sub_nonneg.mpr (Int.floor_le v)

theorem fractionOf_lt_one (v : ℚ) : fractionOf v < 1 := by
  unfold fractionOf
  have h := Int.lt_floor_add_one v
  linarith

/-- With non-negative pseudo-costs and a fraction in `[0, 1]` the score is
non-negative. -/
theorem scoreOf_nonneg (round : Int) (f pd pu : ℚ) (b : Bool)
    (hf0 : 0 ≤ f) (hf1 : f ≤ 1) (hpd : 0 ≤ pd) (hpu : 0 ≤ pu) :
    0 ≤ scoreOf round f pd pu b := by
  have h1 : 0 ≤ f * (pd + 1) / (pu + 1) :=
    div_nonneg (mul_nonneg hf0 (by linarith)) (by linarith)
  have h2 : 0 ≤ (1 - f) * (pu + 1) / (pd + 1) :=
    div_nonneg (mul_nonneg (by linarith) (by linarith)) (by linarith)
  simp only [scoreOf]
  split_ifs
  · exact mul_nonneg h1 (by norm_num)
  · exact mul_nonneg h2 (by norm_num)
  · exact h1
  · exact h2

theorem scoreAt_nonneg (m : SelectInput) (i : Nat) (a : Bool)
    (h : m.downArray i ≥ 0 ∧ m.upArray i ≥ 0) : 0 ≤ scoreAt m i a :=
  scoreOf_nonneg _ _ _ _ _ (fractionOf_nonneg _) (le_of_lt (fractionOf_lt_one _)) h.1 h.2

/-- Without a priority array, an iteration that starts with the flag off keeps
the best column or moves it to a fractional variable locked on both sides. -/
theorem selectStep_bestColumn_locked (m : SelectInput) (hp : m.priority = none) (i : Nat)
    (st st1 : SelectState) (h : selectStep m i st = some st1)
    (hf : st.allTriviallyRoundableSoFar = false) :
    st1.bestColumn = st.bestColumn ∨
      (lockedFractionalAt m i ∧ st1.bestColumn = m.integerVariable i) := by
  simp only [selectStep, hp, hf, Bool.false_eq_true, false_or] at h
  split_ifs at h with h1 h2 h3 h4
  · cases h; exact Or.inl rfl
  · cases h
    have hr : resetOnLocked (m.downLocks i) (m.upLocks i) st = st := by
      simp [resetOnLocked, hf]
    rw [hr]
    simp only [updateBest]
    split_ifs
    · exact Or.inr ⟨⟨⟨by simpa using h1, h2⟩, h3.1, h3.2⟩, rfl⟩
    · exact Or.inl rfl
  · cases h; exact Or.inl rfl
  · cases h; exact Or.inl rfl

/-- Without a priority array, the iteration that turns the flag off selects its
own variable: the reset best score -1 is below every score. -/
theorem selectStep_first_locked (m : SelectInput) (hp : m.priority = none) (i : Nat)
    (st st1 : SelectState) (h : selectStep m i st = some st1)
    (hf : st.allTriviallyRoundableSoFar = true)
    (hf1 : st1.allTriviallyRoundableSoFar = false) :
    lockedFractionalAt m i ∧ st1.bestColumn = m.integerVariable i := by
  have hl : lockedFractionalAt m i := by
    rcases (selectStep_allTrivial_false m i st st1 h).mp hf1 with h0 | h0
    · rw [hf] at h0; cases h0
    · exact h0
  refine ⟨hl, ?_⟩
  obtain ⟨⟨hh, hfr⟩, hd, hu⟩ := hl
  simp only [selectStep, hp, hf, hh, hfr, true_or, if_true, Bool.true_eq_false, if_false] at h
  split_ifs at h with h4
  cases h
  have hr : resetOnLocked (m.downLocks i) (m.upLocks i) st
      = { st with allTriviallyRoundableSoFar := false, bestScore := -1 } := by
    simp [resetOnLocked, hf, hd, hu]
  rw [hr]
  have hs := scoreAt_nonneg m i false h4
  simp only [updateBest]
  rw [if_pos (by linarith)]

/-- Without a priority array, once the flag is off the best column is that of a
fractional variable locked on both sides. -/
theorem selectLoop_bestColumn_locked (m : SelectInput) (hp : m.priority = none) :
    ∀ (n : Nat) (st : SelectState), selectLoop m n = some st →
      st.allTriviallyRoundableSoFar = false →
      ∃ i, i < n ∧ lockedFractionalAt m i ∧ st.bestColumn = m.integerVariable i := by
  intro n
  induction n with
  | zero =>
    intro st h hf
    simp only [selectLoop, Option.some.injEq] at h
    subst h
    simp [selectInit] at hf
  | succ n ih =>
    intro st h hf
    simp only [selectLoop] at h
    cases hn : selectLoop m n with
    | none => simp [hn] at h
    | some st0 =>
      rw [hn] at h
      simp only [Option.some_bind] at h
      cases h0 : st0.allTriviallyRoundableSoFar with
      | true =>
        obtain ⟨hl, hc⟩ := selectStep_first_locked m hp n st0 st h h0 hf
        exact ⟨n, Nat.lt_succ_self n, hl, hc⟩
      | false =>
        rcases selectStep_bestColumn_locked m hp n st0 st h h0 with hc | ⟨hl, hc⟩
        · obtain ⟨j, hj, hl, hb⟩ := ih st0 hn h0
          exact ⟨j, Nat.lt_succ_of_lt hj, hl, hc.trans hb⟩
        · exact ⟨n, Nat.lt_succ_self n, hl, hc⟩

/-! ## Claims on the selection -/

/-- C7: with no priority array, whenever `selectVariableToBranch` returns false
the returned `bestColumn` is the column of a fractional heuristic integer with
`downLocks > 0` and `upLocks > 0`. -/
theorem c7_false_selects_locked_variable (m : SelectInput) (hp : m.priority = none)
    (r : SelectResult) (h : selectVariableToBranch m = some r)
    (hf : r.allTriviallyRoundable = false) :
    ∃ i, i < m.numberIntegers ∧ lockedFractionalAt m i ∧
      r.bestColumn = m.integerVariable i := by
  obtain ⟨st, hst, hc, -, hflag⟩ := selectVariableToBranch_eq_some m r h
  rw [hflag] at hf
  obtain ⟨i, hi, hl, hb⟩ := selectLoop_bestColumn_locked m hp m.numberIntegers st hst hf
  exact ⟨i, hi, hl, hc.trans hb⟩

/-- C7 at the scenario A then B: B (column 1) is selected, rounded up, the
function returns false, the best score is 0.8 * 6 / 2 = 2.4, and the selected
column is that of a variable locked on both sides. -/
theorem c7_witness :
    selectVariableToBranch scenarioAB
        = some { bestColumn := 1, bestRound := 1, allTriviallyRoundable := false } ∧
      (selectLoop scenarioAB 2).map (fun st => st.bestScore) = some (24 / 10) ∧
      ∃ i, i < scenarioAB.numberIntegers ∧ lockedFractionalAt scenarioAB i ∧
        (1 : Int) = scenarioAB.integerVariable i :=
  have h : selectVariableToBranch scenarioAB
      = some { bestColumn := 1, bestRound := 1, allTriviallyRoundable := false } := by decide!
  ⟨h, by decide!, c7_false_selects_locked_variable scenarioAB rfl _ h rfl⟩

/-- C8: the score computed at a position whose variable is binary is exactly
1000 times the score computed there for the same input with the variable not
binary, and the direction is the same. -/
theorem c8_binary_score_is_thousandfold (m : SelectInput) (i : Nat) (allTrivial : Bool)
    (binary notBinary : Int → Bool)
    (hb : binary (m.integerVariable i) = true)
    (hn : notBinary (m.integerVariable i) = false) :
    scoreAt { m with isBinary := binary } i allTrivial
        = 1000 * scoreAt { m with isBinary := notBinary } i allTrivial ∧
      roundAt { m with isBinary := binary } i allTrivial
        = roundAt { m with isBinary := notBinary } i allTrivial := by
  refine ⟨?_, rfl⟩
  simp only [scoreAt, roundAt, scoreOf, hb, hn, if_true, Bool.false_eq_true, if_false]
  ring

/-- C8 at variable B of the scenario: 2400 as a binary, 2.4 otherwise. -/
theorem c8_witness :
    scoreAt { scenarioAB with isBinary := fun _ => true } 1 false = 2400 ∧
      scoreAt { scenarioAB with isBinary := fun _ => false } 1 false = 24 / 10 ∧
      scoreAt { scenarioAB with isBinary := fun _ => true } 1 false
        = 1000 * scoreAt { scenarioAB with isBinary := fun _ => false } 1 false :=
  ⟨by decide!, by decide!,
    (c8_binary_score_is_thousandfold scenarioAB 1 false (fun _ => true) (fun _ => false)
      rfl rfl).1⟩

/-- In exact arithmetic only: when the cascade rounds the variable at position
`i` up, its fraction is positive and its up pseudo-cost is non-negative, raising
`downArray_[i]` to any larger value keeps the direction up and strictly raises
the exact score `fraction * (down + 1) / (up + 1)`, times 1000 for a binary. -/
theorem scoreAt_strictly_increasing_exact (m : SelectInput) (i : Nat)
    (allTrivial : Bool) (d2 : ℚ)
    (hf : 0 < fractionOf (m.newSolution (m.integerVariable i)))
    (hu : 0 ≤ m.upArray i) (hd : m.downArray i < d2)
    (hr : roundAt m i allTrivial = 1) :
    roundAt { m with downArray := Function.update m.downArray i d2 } i allTrivial = 1 ∧
      scoreAt m i allTrivial
        < scoreAt { m with downArray := Function.update m.downArray i d2 } i allTrivial := by
  have hr2 : roundAt { m with downArray := Function.update m.downArray i d2 } i allTrivial
      = 1 := by
    simp only [roundAt, cascadeRound, Function.update_same] at hr ⊢
    split_ifs at hr ⊢ with h1 h2 h3 h4 h5 h6 h7 h8
    all_goals first
      | rfl
      | (exfalso; linarith)
  refine ⟨hr2, ?_⟩
  have key : fractionOf (m.newSolution (m.integerVariable i)) * (m.downArray i + 1)
        / (m.upArray i + 1)
      < fractionOf (m.newSolution (m.integerVariable i)) * (d2 + 1) / (m.upArray i + 1) :=
    div_lt_div_of_pos_right (mul_lt_mul_of_pos_left (by linarith) hf) (by linarith)
  simp only [scoreAt, scoreOf, hr, hr2, if_true, Function.update_same]
  split_ifs
  · linarith
  · exact key

/-! ## initializeData -/

/-- After `n` iterations of the loop of `initializeData`, a position below `n`
whose object carries dynamic data holds the blended values, and every other
position holds what `fillPseudoCosts` wrote. -/
theorem initLoop_values (m : InitInput) :
    ∀ n : Nat,
      (∀ i obj, i < n → m.objects (shadowArgument m.when_) i = some obj →
        (initLoop m n).downArray i
            = max (max (1 / 100 * obj.downDynamicPseudoCost) obj.downShadowPrice)
                (1 / 1000 * obj.upShadowPrice) ∧
          (initLoop m n).upArray i
            = max (max (1 / 100 * obj.upDynamicPseudoCost) obj.upShadowPrice)
                (1 / 1000 * obj.downShadowPrice)) ∧
      (∀ i, (n ≤ i ∨ m.objects (shadowArgument m.when_) i = none) →
        (initLoop m n).downArray i = m.fillDown i ∧ (initLoop m n).upArray i = m.fillUp i) := by
  intro n
  induction n with
  | zero =>
    refine ⟨fun i obj hi => absurd hi (Nat.not_lt_zero i), fun i _ => ⟨rfl, rfl⟩⟩
  | succ n ih =>
    obtain ⟨ih1, ih2⟩ := ih
    simp only [initLoop, initStep]
    cases hn : m.objects (shadowArgument m.when_) n with
    | none =>
      refine ⟨?_, ?_⟩
      · intro i obj hi ho
        rcases Nat.lt_succ_iff_lt_or_eq.mp hi with hlt | heq
        · exact ih1 i obj hlt ho
        · rw [heq, hn] at ho; cases ho
      · intro i hi
        rcases hi with hi | hi
        · exact ih2 i (Or.inl (Nat.le_of_succ_le hi))
        · exact ih2 i (Or.inr hi)
    | some o =>
      refine ⟨?_, ?_⟩
      · intro i obj hi ho
        rcases Nat.lt_succ_iff_lt_or_eq.mp hi with hlt | heq
        · simp only [Function.update_noteq (Nat.ne_of_lt hlt)]
          exact ih1 i obj hlt ho
        · subst heq
          rw [hn] at ho
          cases ho
          simp only [Function.update_same, and_self]
      · intro i hi
        have hne : i ≠ n := by
          rcases hi with hi | hi
          · omega
          · intro he; rw [he, hn] at hi; cases hi
        simp only [Function.update_noteq hne]
        rcases hi with hi | hi
        · exact ih2 i (Or.inl (Nat.le_of_succ_le hi))
        · exact ih2 i (Or.inr hi)

/-- C10: in extended mode (`diveOptions` not zero), at every position below
`min(numberObjects, numberIntegers)` whose object carries dynamic pseudo-cost
data, `initializeData` leaves
`downArray_[i] = max(0.01 * downDynamicPseudoCost, downShadowPrice, 0.001 * upShadowPrice)`
and `upArray_[i] = max(0.01 * upDynamicPseudoCost, upShadowPrice, 0.001 * downShadowPrice)`;
every other position keeps the value written by `fillPseudoCosts`. -/
theorem c10_extended_mode_blends_shadow_prices (m : InitInput)
    (hx : diveOptions m.when_ ≠ 0) :
    (∀ i obj, i < min m.numberObjects m.numberIntegers →
      m.objects (shadowArgument m.when_) i = some obj →
      (initializeData m).downArray i
          = max (max (1 / 100 * obj.downDynamicPseudoCost) obj.downShadowPrice)
              (1 / 1000 * obj.upShadowPrice) ∧
        (initializeData m).upArray i
          = max (max (1 / 100 * obj.upDynamicPseudoCost) obj.upShadowPrice)
              (1 / 1000 * obj.downShadowPrice)) ∧
    (∀ i, (min m.numberObjects m.numberIntegers ≤ i ∨
        m.objects (shadowArgument m.when_) i = none) →
      (initializeData m).downArray i = m.fillDown i ∧
        (initializeData m).upArray i = m.fillUp i) := by
  have h : initializeData m = initLoop m (min m.numberObjects m.numberIntegers) := by
    simp only [initializeData, hx, ne_eq, not_false_eq_true, if_true]
  rw [h]
  exact initLoop_values m (min m.numberObjects m.numberIntegers)

/-- C10 at an extended-mode input: position 0 carries dynamic data and gets
`max(0.5, 0.2, 1) = 1` and `max(0.1, 1000, 0.0002) = 1000`; position 1 has an
object without dynamic data and position 2 has no object, both keep 7 and 9. -/
theorem c10_witness :
    ((initializeData extendedMode).downArray 0 = 1 ∧
        (initializeData extendedMode).upArray 0 = 1000) ∧
      ((initializeData extendedMode).downArray 1 = 7 ∧
        (initializeData extendedMode).upArray 1 = 9) ∧
      ((initializeData extendedMode).downArray 2 = 7 ∧
        (initializeData extendedMode).upArray 2 = 9) :=
  have h := c10_extended_mode_blends_shadow_prices extendedMode (by decide)
  ⟨by
      have h0 := h.1 0 _ (by decide) rfl
      refine ⟨h0.1.trans (by decide!), h0.2.trans (by decide!)⟩,
    h.2 1 (Or.inr rfl), h.2 2 (Or.inl (by decide))⟩

/-- The blended value is at least the scaled dynamic pseudo-cost. -/
theorem blend_nonneg (a b c : ℚ) (h : 0 ≤ a) : 0 ≤ max (max (1 / 100 * a) b) c :=
  le_trans (mul_nonneg (by norm_num) h) (le_trans (le_max_left _ _) (le_max_left _ _))

/-- With non-negative values from `fillPseudoCosts` and non-negative dynamic
pseudo-costs, the arrays left by `initializeData` are non-negative below
`numberIntegers`. -/
theorem initializeData_nonneg (m : InitInput)
    (hfill : ∀ i, i < m.numberIntegers → 0 ≤ m.fillDown i ∧ 0 ≤ m.fillUp i)
    (hdyn : ∀ i obj, m.objects (shadowArgument m.when_) i = some obj →
      0 ≤ obj.downDynamicPseudoCost ∧ 0 ≤ obj.upDynamicPseudoCost) :
    ∀ i, i < m.numberIntegers →
      0 ≤ (initializeData m).downArray i ∧ 0 ≤ (initializeData m).upArray i := by
  intro i hi
  by_cases hx : diveOptions m.when_ ≠ 0
  · have h : initializeData m = initLoop m (min m.numberObjects m.numberIntegers) := by
      simp only [initializeData, hx, ne_eq, not_false_eq_true, if_true]
    obtain ⟨h1, h2⟩ := initLoop_values m (min m.numberObjects m.numberIntegers)
    rw [h]
    by_cases hlt : i < min m.numberObjects m.numberIntegers
    · cases ho : m.objects (shadowArgument m.when_) i with
      | none =>
        obtain ⟨e1, e2⟩ := h2 i (Or.inr ho)
        rw [e1, e2]; exact hfill i hi
      | some obj =>
        obtain ⟨e1, e2⟩ := h1 i obj hlt ho
        obtain ⟨d1, d2⟩ := hdyn i obj ho
        rw [e1, e2]
        exact ⟨blend_nonneg _ _ _ d1, blend_nonneg _ _ _ d2⟩
    · obtain ⟨e1, e2⟩ := h2 i (Or.inl (Nat.le_of_not_lt hlt))
      rw [e1, e2]; exact hfill i hi
  · have h : initializeData m = { downArray := m.fillDown, upArray := m.fillUp } := by
      simp only [initializeData, hx, if_false]
    rw [h]
    exact hfill i hi

/-- C11: when the values written by `fillPseudoCosts` and every dynamic down and
up pseudo-cost are non-negative, every entry of `downArray_` and `upArray_` is
non-negative after `initializeData`, in plain and in extended mode and whatever
the shadow prices; so `selectVariableToBranch`, run on these arrays, passes its
assertion and returns. -/
theorem c11_pseudo_costs_non_negative (m : InitInput)
    (hfill : ∀ i, i < m.numberIntegers → 0 ≤ m.fillDown i ∧ 0 ≤ m.fillUp i)
    (hdyn : ∀ i obj, m.objects (shadowArgument m.when_) i = some obj →
      0 ≤ obj.downDynamicPseudoCost ∧ 0 ≤ obj.upDynamicPseudoCost) :
    (∀ i, i < m.numberIntegers →
      0 ≤ (initializeData m).downArray i ∧ 0 ≤ (initializeData m).upArray i) ∧
    (∀ s : SelectInput, s.numberIntegers = m.numberIntegers →
      s.downArray = (initializeData m).downArray → s.upArray = (initializeData m).upArray →
      ∃ r, selectVariableToBranch s = some r) := by
  have h := initializeData_nonneg m hfill hdyn
  refine ⟨h, ?_⟩
  intro s hn hd hu
  apply selectVariableToBranch_isSome
  intro i hi
  rw [hd, hu]
  exact h i (hn ▸ hi)

/-- C11 at an extended-mode input with the shadow prices -5 and -7: position 0
gets `max(0, -5, -0.007) = 0` and `max(0.03, -7, -0.005) = 0.03`. -/
theorem c11_witness :
    (initializeData negativeShadow).downArray 0 = 0 ∧
      (initializeData negativeShadow).upArray 0 = 3 / 100 ∧
      (0 ≤ (initializeData negativeShadow).downArray 0 ∧
        0 ≤ (initializeData negativeShadow).upArray 0) :=
  ⟨by decide!, by decide!,
    (c11_pseudo_costs_non_negative negativeShadow
      (fun _ _ => ⟨le_refl _, by norm_num [negativeShadow]⟩)
      (fun i obj h => by
        by_cases hi : i = 0
        · subst hi
          simp only [negativeShadow, if_true, Option.some.injEq] at h
          subst h
          exact ⟨le_refl _, by norm_num⟩
        · simp [negativeShadow, hi] at h)).1 0 (by decide)⟩

/-- C12, on the code: a variable with `downLocks = 0` and `upLocks > 0`, examined
in all-trivial mode with no priority array, gets the direction +1 (up), not -1:
its fraction 0.2 would give down in the rest of the cascade. -/
theorem c12_up_locked_is_rounded_up :
    upLockedOnly.downLocks 0 = 0 ∧ upLockedOnly.upLocks 0 > 0 ∧
      upLockedOnly.priority = none ∧
      roundAt upLockedOnly 0 true = 1 ∧ roundAt upLockedOnly 0 true ≠ -1 ∧
      selectVariableToBranch upLockedOnly
        = some { bestColumn := 0, bestRound := 1, allTriviallyRoundable := true } :=
  ⟨by decide, by decide, rfl, by decide!, by decide!, by decide!⟩

/-- C12, amended: in all-trivial mode, with no forced direction (bit 0 of the
direction clear), a variable with `downLocks = 0` and `upLocks > 0` gets the
direction up (+1), and a variable with `downLocks > 0` and `upLocks = 0` gets the
direction down (-1): it is rounded towards its locked side. -/
theorem c12_one_sided_lock_rounds_towards_lock (m : SelectInput) (i : Nat) (direction : Nat)
    (hdir : direction &&& 1 = 0) :
    (m.downLocks i = 0 → m.upLocks i > 0 →
      forcedRound direction (roundAt m i true) = 1 ∧ roundAt m i true = 1) ∧
    (m.downLocks i > 0 → m.upLocks i = 0 →
      forcedRound direction (roundAt m i true) = -1 ∧ roundAt m i true = -1) := by
  have hf : ∀ r : Int, forcedRound direction r = r := by
    intro r; simp [forcedRound, hdir]
  refine ⟨fun hd hu => ?_, fun hd hu => ?_⟩
  · have h : roundAt m i true = 1 := by simp [roundAt, cascadeRound, hd, hu]
    exact ⟨by rw [hf, h], h⟩
  · have h : roundAt m i true = -1 := by
      have hd0 : m.downLocks i ≠ 0 := Nat.pos_iff_ne_zero.mp hd
      simp [roundAt, cascadeRound, hd, hu, hd0]
    exact ⟨by rw [hf, h], h⟩

/-- C12, amended, at a variable locked down only: it is rounded down although
its fraction 0.8 would give up in the rest of the cascade. -/
theorem c12_witness :
    roundAt downLockedOnly 0 true = -1 ∧
      selectVariableToBranch downLockedOnly
        = some { bestColumn := 0, bestRound := -1, allTriviallyRoundable := true } :=
  ⟨((c12_one_sided_lock_rounds_towards_lock downLockedOnly 0 0 (by decide)).2
      (by decide) (by decide)).2, by decide!⟩

/-- C13: at a variable to which the one-sided-lock rule does not apply, with no
forced direction (bit 0 of the direction clear), the direction is the one of the
cascade of the specification: down if `value - rootValue < -0.4`, else up if it
is `> 0.4`, else down if `fraction < 0.3`, else up if `fraction > 0.7`, else down
if the down pseudo-cost is below the up one, and up otherwise. -/
theorem c13_direction_cascade (m : SelectInput) (i : Nat) (allTrivial : Bool)
    (direction : Nat) (hdir : direction &&& 1 = 0)
    (h1 : ¬ (allTrivial = true ∧ m.downLocks i = 0 ∧ m.upLocks i > 0))
    (h2 : ¬ (allTrivial = true ∧ m.downLocks i > 0 ∧ m.upLocks i = 0)) :
    roundAt m i allTrivial
        = specDirection (m.newSolution (m.integerVariable i))
            (m.rootNodeLPSol (m.integerVariable i))
            (fractionOf (m.newSolution (m.integerVariable i))) (m.downArray i) (m.upArray i) ∧
      forcedRound direction (roundAt m i allTrivial) = roundAt m i allTrivial := by
  refine ⟨?_, by simp [forcedRound, hdir]⟩
  simp only [roundAt, cascadeRound, specDirection, if_neg h1, if_neg h2]

/-- C13 at the scenario of the specification: a single binary variable with
fraction 0.5 and both pseudo-costs 0 is rounded up, with the score
0.5 * 1 / 1 * 1000 = 500. -/
theorem c13_witness :
    roundAt singleBinary 0 true = 1 ∧ scoreAt singleBinary 0 true = 500 ∧
      selectVariableToBranch singleBinary
        = some { bestColumn := 0, bestRound := 1, allTriviallyRoundable := true } ∧
      (selectLoop singleBinary 1).map (fun st => st.bestScore) = some 500 :=
  ⟨((c13_direction_cascade singleBinary 0 true 0 (by decide) (by decide!) (by decide!)).1).trans
      (by decide!), by decide!, by decide!, by decide!⟩

/-- The extended mode is entered exactly from `when_ = 100` on. -/
theorem diveOptions_ne_zero_iff (w : Int) : diveOptions w ≠ 0 ↔ 100 ≤ w := by
  unfold diveOptions
  split_ifs with h
  · omega
  · constructor
    · intro h0; exact absurd rfl h0
    · intro h1; omega

/-- C20: `initializeData` runs the shadow-price recomputation exactly when
`when_ >= 100`; for every `when_ <= 99` (0, negative values and 1..99 included)
the two arrays are what `fillPseudoCosts` wrote, and for `when_ >= 100` they are
the outcome of the loop over the objects. -/
theorem c20_extended_mode_iff_when_at_least_100 (m : InitInput) :
    (diveOptions m.when_ ≠ 0 ↔ 100 ≤ m.when_) ∧
    (m.when_ ≤ 99 →
      (initializeData m).downArray = m.fillDown ∧ (initializeData m).upArray = m.fillUp) ∧
    (100 ≤ m.when_ →
      initializeData m = initLoop m (min m.numberObjects m.numberIntegers)) := by
  refine ⟨diveOptions_ne_zero_iff m.when_, ?_, ?_⟩
  · intro h
    have h0 : ¬ diveOptions m.when_ ≠ 0 := fun hx => by
      have := (diveOptions_ne_zero_iff m.when_).mp hx
      omega
    simp only [initializeData, h0, if_false, and_self]
  · intro h
    have h0 : diveOptions m.when_ ≠ 0 := (diveOptions_ne_zero_iff m.when_).mpr h
    simp only [initializeData, h0, ne_eq, not_false_eq_true, if_true]

/-- C20 at `when_ = 99` with objects that carry dynamic data: the arrays are the
ones of `fillPseudoCosts`; and at `when_ = 100` position 0 is recomputed. -/
theorem c20_witness :
    ((initializeData plainMode).downArray = plainMode.fillDown ∧
        (initializeData plainMode).upArray = plainMode.fillUp) ∧
      (initializeData plainMode).downArray 0 = 1 ∧
      (initializeData extendedMode).downArray 0 ≠ extendedMode.fillDown 0 :=
  ⟨(c20_extended_mode_iff_when_at_least_100 plainMode).2.1 (by decide), by decide!, by decide!⟩

/-! ## The priority rules -/

/-- C14, on the code: with a priority array, B (priority 5, locked on both sides)
is the running best after two iterations, with `bestPriority = 5`; C has the
strictly worse priority 10 and the same computed score, and examining it makes it
the running best: the returned `bestColumn` is the column 2 of C. -/
theorem c14_worse_priority_is_selected :
    (selectLoop threePriorities 2).map (fun st => (st.bestColumn, st.bestPriority))
        = some (1, 5) ∧
      scoreAt threePriorities 2 false = scoreAt threePriorities 1 false ∧
      selectVariableToBranch threePriorities
        = some { bestColumn := 2, bestRound := 1, allTriviallyRoundable := false } :=
  ⟨by decide!, by decide!, by decide!⟩

theorem resetOnLocked_best (d u : Nat) (st : SelectState) :
    (resetOnLocked d u st).bestColumn = st.bestColumn ∧
      (resetOnLocked d u st).bestRound = st.bestRound ∧
      (resetOnLocked d u st).bestPriority = st.bestPriority := by
  unfold resetOnLocked
  split_ifs <;> exact ⟨rfl, rfl, rfl⟩

/-- With a priority array, the update keeps the best column and round, or
records the column with the round after the forced-direction rule. -/
theorem updateBest_priority_cases (prio : Nat → PriorityType) (i : Nat) (c : Int)
    (round : Int) (score : ℚ) (st : SelectState) :
    ((updateBest (some prio) i c round score st).bestColumn = st.bestColumn ∧
        (updateBest (some prio) i c round score st).bestRound = st.bestRound) ∨
      ((updateBest (some prio) i c round score st).bestColumn = c ∧
        (updateBest (some prio) i c round score st).bestRound
          = forcedRound (prio i).direction round) := by
  simp only [updateBest]
  split_ifs
  all_goals first
    | exact Or.inl ⟨rfl, rfl⟩
    | exact Or.inr ⟨rfl, rfl⟩

/-- With a priority array, an iteration keeps the best column and round, or
records its own fractional variable with the forced or cascade direction. -/
theorem selectStep_priority_cases (m : SelectInput) (prio : Nat → PriorityType)
    (hp : m.priority = some prio) (i : Nat) (st st1 : SelectState)
    (h : selectStep m i st = some st1) :
    (st1.bestColumn = st.bestColumn ∧ st1.bestRound = st.bestRound) ∨
      (fractionalAt m i ∧ st1.bestColumn = m.integerVariable i ∧
        st1.bestRound
          = forcedRound (prio i).direction (roundAt m i st1.allTriviallyRoundableSoFar)) := by
  simp only [selectStep, hp] at h
  split_ifs at h with h1 h2 h3 h4
  · cases h; exact Or.inl ⟨rfl, rfl⟩
  · cases h
    obtain ⟨r1, r2, -⟩ := resetOnLocked_best (m.downLocks i) (m.upLocks i) st
    rw [updateBest_allTrivial]
    rcases updateBest_priority_cases prio i (m.integerVariable i)
      (roundAt m i (resetOnLocked (m.downLocks i) (m.upLocks i) st).allTriviallyRoundableSoFar)
      (scoreAt m i (resetOnLocked (m.downLocks i) (m.upLocks i) st).allTriviallyRoundableSoFar)
      (resetOnLocked (m.downLocks i) (m.upLocks i) st) with ⟨e1, e2⟩ | ⟨e1, e2⟩
    · exact Or.inl ⟨e1.trans r1, e2.trans r2⟩
    · exact Or.inr ⟨⟨by simpa using h1, h2⟩, e1, e2⟩
  · cases h; exact Or.inl ⟨rfl, rfl⟩
  · cases h; exact Or.inl ⟨rfl, rfl⟩

/-- With a priority array, after `n` iterations nothing is recorded, or the best
round is the forced or cascade direction of the recorded position. -/
theorem selectLoop_priority_round (m : SelectInput) (prio : Nat → PriorityType)
    (hp : m.priority = some prio) :
    ∀ (n : Nat) (st : SelectState), selectLoop m n = some st →
      (st.bestColumn = -1 ∧ st.bestRound = -1) ∨
        ∃ i a, i < n ∧ fractionalAt m i ∧
          (selectLoop m (i + 1)).map (fun s => s.allTriviallyRoundableSoFar) = some a ∧
          st.bestColumn = m.integerVariable i ∧
          st.bestRound = forcedRound (prio i).direction (roundAt m i a) := by
  intro n
  induction n with
  | zero =>
    intro st h
    simp only [selectLoop, Option.some.injEq] at h
    subst h
    exact Or.inl ⟨rfl, rfl⟩
  | succ n ih =>
    intro st h
    have hs := h
    simp only [selectLoop] at h
    cases hn : selectLoop m n with
    | none => simp [hn] at h
    | some st0 =>
      rw [hn] at h
      simp only [Option.some_bind] at h
      rcases selectStep_priority_cases m prio hp n st0 st h with ⟨e1, e2⟩ | ⟨hf, e1, e2⟩
      · rcases ih st0 hn with ⟨c1, c2⟩ | ⟨i, a, hi, hf, ha, c1, c2⟩
        · exact Or.inl ⟨e1.trans c1, e2.trans c2⟩
        · exact Or.inr ⟨i, a, Nat.lt_succ_of_lt hi, hf, ha, e1.trans c1, e2.trans c2⟩
      · exact Or.inr ⟨n, st.allTriviallyRoundableSoFar, Nat.lt_succ_self n, hf,
          by rw [hs]; rfl, e1, e2⟩

/-- C16: with a priority array, when `selectVariableToBranch` returns, either
nothing was recorded (`bestColumn` and `bestRound` are -1) or the returned best
was recorded at a fractional position `i`, and then: if bit 0 of the direction
of `i` is set, `bestRound` is +1 when bit 1 is set and -1 when it is clear,
whatever the cascade chose; if bit 0 is clear, `bestRound` is the direction of
the cascade at `i`. -/
theorem c16_forced_direction (m : SelectInput) (prio : Nat → PriorityType)
    (hp : m.priority = some prio) (r : SelectResult)
    (h : selectVariableToBranch m = some r) :
    (r.bestColumn = -1 ∧ r.bestRound = -1) ∨
      ∃ i a, i < m.numberIntegers ∧ fractionalAt m i ∧
        (selectLoop m (i + 1)).map (fun s => s.allTriviallyRoundableSoFar) = some a ∧
        r.bestColumn = m.integerVariable i ∧
        ((prio i).direction &&& 1 ≠ 0 →
          r.bestRound = if (prio i).direction &&& 2 = 0 then -1 else 1) ∧
        ((prio i).direction &&& 1 = 0 → r.bestRound = roundAt m i a) := by
  obtain ⟨st, hst, hc, hr, -⟩ := selectVariableToBranch_eq_some m r h
  rcases selectLoop_priority_round m prio hp m.numberIntegers st hst with
    ⟨c1, c2⟩ | ⟨i, a, hi, hf, ha, c1, c2⟩
  · exact Or.inl ⟨hc.trans c1, hr.trans c2⟩
  · refine Or.inr ⟨i, a, hi, hf, ha, hc.trans c1, ?_, ?_⟩
    · intro hb
      rw [hr, c2]
      simp only [forcedRound, hb, ne_eq, not_false_eq_true, if_true]
    · intro hb
      rw [hr, c2]
      simp only [forcedRound, hb, ne_eq, not_true_eq_false, if_false]

/-- C16 at an input where B is selected: the cascade gives down for its fraction
0.2, its direction 3 has bits 0 and 1 set, and the returned `bestRound` is +1. -/
theorem c16_witness :
    selectVariableToBranch forcedUp
        = some { bestColumn := 1, bestRound := 1, allTriviallyRoundable := false } ∧
      roundAt forcedUp 1 false = -1 ∧
      ((1 : Int) = -1 ∧ (1 : Int) = -1 ∨
        ∃ i a, i < forcedUp.numberIntegers ∧ fractionalAt forcedUp i ∧
          (selectLoop forcedUp (i + 1)).map (fun s => s.allTriviallyRoundableSoFar) = some a ∧
          (1 : Int) = forcedUp.integerVariable i ∧
          ((if i = 0 then 0 else 3) &&& 1 ≠ 0 →
            (1 : Int) = if (if i = 0 then 0 else 3) &&& 2 = 0 then -1 else 1) ∧
          ((if i = 0 then 0 else 3) &&& 1 = 0 → (1 : Int) = roundAt forcedUp i a)) :=
  have h : selectVariableToBranch forcedUp
      = some { bestColumn := 1, bestRound := 1, allTriviallyRoundable := false } := by decide!
  ⟨h, by decide!, c16_forced_direction forcedUp _ rfl _ h⟩

/-- With a priority array, a score below `COIN_DBL_MAX` is not recorded when
the best score is `COIN_DBL_MAX` already or the priority is better than the best
one: the best score is `COIN_DBL_MAX` afterwards. -/
theorem updateBest_priority_blocked (prio : Nat → PriorityType) (i : Nat) (c : Int)
    (round : Int) (score : ℚ) (st : SelectState) (hs : score < COIN_DBL_MAX)
    (h : st.bestScore = COIN_DBL_MAX ∨ (prio i).priority < st.bestPriority) :
    (updateBest (some prio) i c round score st).bestColumn = st.bestColumn ∧
      (updateBest (some prio) i c round score st).bestRound = st.bestRound ∧
      (updateBest (some prio) i c round score st).bestScore = COIN_DBL_MAX := by
  simp only [updateBest]
  split_ifs with h1 h2 h3 h4 h5
  · exact absurd h2 (by rcases h with h | h <;> [(rw [h]; exact lt_irrefl _); omega])
  · rcases h with h | h
    · exact ⟨rfl, rfl, h⟩
    · omega
  · exact absurd h4 (not_lt.mpr (le_of_lt hs))
  · exact ⟨rfl, rfl, rfl⟩
  · rcases h with h | h
    · rw [h] at h5; exact absurd h5 (not_lt.mpr (le_of_lt hs))
    · omega
  · rcases h with h | h
    · exact ⟨rfl, rfl, h⟩
    · omega

/-- The state of C19 after `n` iterations: the flag is on, nothing is recorded,
and either no fractional variable was met and the state is the initial one, or
the best score is `COIN_DBL_MAX`. -/
theorem selectLoop_priority_selects_nothing (m : SelectInput) (prio : Nat → PriorityType)
    (hp : m.priority = some prio)
    (hfirst : ∀ i, i < m.numberIntegers → fractionalAt m i →
      (∀ j, j < i → ¬ fractionalAt m j) → (prio i).priority < COIN_INT_MAX)
    (hscore : ∀ i, i < m.numberIntegers → fractionalAt m i → scoreAt m i true < COIN_DBL_MAX) :
    ∀ (n : Nat) (st : SelectState), n ≤ m.numberIntegers →
      (∀ i, i < n → ¬ lockedFractionalAt m i) → selectLoop m n = some st →
      st.allTriviallyRoundableSoFar = true ∧ st.bestColumn = -1 ∧ st.bestRound = -1 ∧
        ((st.bestPriority = COIN_INT_MAX ∧ ∀ j, j < n → ¬ fractionalAt m j) ∨
          st.bestScore = COIN_DBL_MAX) := by
  intro n
  induction n with
  | zero =>
    intro st _ _ h
    simp only [selectLoop, Option.some.injEq] at h
    subst h
    exact ⟨rfl, rfl, rfl, Or.inl ⟨rfl, fun j hj => absurd hj (Nat.not_lt_zero j)⟩⟩
  | succ n ih =>
    intro st hn hno h
    simp only [selectLoop] at h
    cases hl : selectLoop m n with
    | none => simp [hl] at h
    | some st0 =>
      rw [hl] at h
      simp only [Option.some_bind] at h
      obtain ⟨f0, c0, r0, d0⟩ := ih st0 (Nat.le_of_succ_le hn)
        (fun i hi => hno i (Nat.lt_succ_of_lt hi)) hl
      have hnl := hno n (Nat.lt_succ_self n)
      by_cases hfr : fractionalAt m n
      · have hlock : ¬ (m.downLocks n > 0 ∧ m.upLocks n > 0) := fun hc => hnl ⟨hfr, hc⟩
        have hreset : resetOnLocked (m.downLocks n) (m.upLocks n) st0 = st0 := by
          unfold resetOnLocked
          rw [if_neg (fun hc => hlock hc.2)]
        have hh := hfr.1
        have hf2 := hfr.2
        simp only [selectStep, hp, hh, hf2, f0, hreset, true_or, if_true, Bool.true_eq_false,
          if_false] at h
        split_ifs at h with h4
        cases h
        have hs := hscore n (Nat.lt_of_succ_le hn) hfr
        have hb : st0.bestScore = COIN_DBL_MAX ∨ (prio n).priority < st0.bestPriority := by
          rcases d0 with ⟨d1, d2⟩ | d1
          · right
            rw [d1]
            exact hfirst n (Nat.lt_of_succ_le hn) hfr d2
          · exact Or.inl d1
        obtain ⟨e1, e2, e3⟩ := updateBest_priority_blocked prio n (m.integerVariable n)
          (roundAt m n true) (scoreAt m n true) st0 hs hb
        exact ⟨by rw [updateBest_allTrivial, f0], e1.trans c0, e2.trans r0, Or.inr e3⟩
      · have hst : st = st0 := by
          simp only [selectStep] at h
          simp only [fractionalAt, not_and] at hfr
          split_ifs at h with h1 h2 h3 h4
          · cases h; rfl
          · exact absurd h2 (hfr (by simpa using h1))
          · cases h; rfl
          · cases h; rfl
        rw [hst]
        refine ⟨f0, c0, r0, ?_⟩
        rcases d0 with ⟨d1, d2⟩ | d1
        · refine Or.inl ⟨d1, fun j hj => ?_⟩
          rcases Nat.lt_succ_iff_lt_or_eq.mp hj with hlt | heq
          · exact d2 j hlt
          · rw [heq]; exact hfr
        · exact Or.inr d1

/-- C19: with a priority array, when no fractional variable has locks on both
sides, the first fractional heuristic integer has a priority below
`COIN_INT_MAX` and every computed score is below `COIN_DBL_MAX`, the function
selects nothing: whenever it returns, `bestColumn` and `bestRound` are -1 (and
the returned flag is true), and it does return when the pseudo-costs are
non-negative. -/
theorem c19_trivial_with_priorities_selects_nothing (m : SelectInput)
    (prio : Nat → PriorityType) (hp : m.priority = some prio)
    (hno : ∀ i, i < m.numberIntegers → ¬ lockedFractionalAt m i)
    (hfirst : ∀ i, i < m.numberIntegers → fractionalAt m i →
      (∀ j, j < i → ¬ fractionalAt m j) → (prio i).priority < COIN_INT_MAX)
    (hscore : ∀ i, i < m.numberIntegers → fractionalAt m i → scoreAt m i true < COIN_DBL_MAX) :
    (∀ r, selectVariableToBranch m = some r →
      r = { bestColumn := -1, bestRound := -1, allTriviallyRoundable := true }) ∧
    (nonNegCosts m m.numberIntegers → ∃ r, selectVariableToBranch m = some r) := by
  refine ⟨?_, selectVariableToBranch_isSome m⟩
  intro r hr
  obtain ⟨st, hst, hc, hrd, hflag⟩ := selectVariableToBranch_eq_some m r hr
  obtain ⟨f0, c0, r0, -⟩ := selectLoop_priority_selects_nothing m prio hp hfirst hscore
    m.numberIntegers st (le_refl _) hno hst
  cases r with
  | mk bc br fl =>
    simp only at hc hrd hflag
    rw [hc, hrd, hflag, c0, r0, f0]

/-- C19 at two fractional variables without locks and with the priorities 3 and
1: both are fractional, and nothing is selected. -/
theorem c19_witness :
    (∀ i, i < trivialWithPriorities.numberIntegers → fractionalAt trivialWithPriorities i) ∧
      selectVariableToBranch trivialWithPriorities
        = some { bestColumn := -1, bestRound := -1, allTriviallyRoundable := true } := by
  refine ⟨by decide!, ?_⟩
  obtain ⟨r, hr⟩ := (c19_trivial_with_priorities_selects_nothing trivialWithPriorities _ rfl
    (by decide!) (by decide!) (by decide!)).2 (fun _ _ => ⟨le_refl _, le_refl _⟩)
  rw [hr, (c19_trivial_with_priorities_selects_nothing trivialWithPriorities _ rfl
    (by decide!) (by decide!) (by decide!)).1 r hr]

/-! ## The order of the candidates -/

/-- An iteration emits exactly at the candidate positions. -/
theorem fixStep_candidate (m : FixInput) (i : Nat) (st : FixState) :
    (isCandidatePosition m i → ∃ x, fixStep m i st = emit st (m.integerVariable i) x) ∧
      (¬ isCandidatePosition m i → fixStep m i st = st) := by
  unfold fixStep isCandidatePosition
  split_ifs with h1 h2 h3 h4 h5
  · exact ⟨fun h => by rw [h1] at h; exact absurd h.1 (by simp), fun _ => rfl⟩
  · exact ⟨fun _ => ⟨_, rfl⟩, fun h => absurd ⟨by simpa using h1, h2, Or.inl h3⟩ h⟩
  · exact ⟨fun _ => ⟨_, rfl⟩, fun h => absurd ⟨by simpa using h1, h2, Or.inr (Or.inl h4)⟩ h⟩
  · exact ⟨fun _ => ⟨_, rfl⟩, fun h => absurd ⟨by simpa using h1, h2, Or.inr (Or.inr h5)⟩ h⟩
  · refine ⟨fun h => ?_, fun _ => rfl⟩
    rcases h.2.2 with h6 | h6 | h6
    · exact absurd h6 h3
    · exact absurd h6 h4
    · exact absurd h6 h5
  · exact ⟨fun h => absurd h.2.1 h2, fun _ => rfl⟩

/-- Emitting appends one column to the columns of the candidates. -/
theorem candidateColumns_emit (st : FixState) (c : Int) (x : ℚ) :
    candidateColumns (emit st c x) = candidateColumns st ++ [some c] := by
  simp only [candidateColumns, emit, List.range_succ, List.map_append, List.map_cons,
    List.map_nil, Function.update_same, Option.map_some']
  congr 1
  apply List.map_congr_left
  intro k hk
  rw [Function.update_noteq (Nat.ne_of_lt (List.mem_range.mp hk))]

theorem expectedColumns_succ (m : FixInput) (n : Nat) :
    expectedColumns m (n + 1) =
      if isCandidatePosition m n then expectedColumns m n ++ [m.integerVariable n]
      else expectedColumns m n := by
  simp only [expectedColumns, List.range_succ, List.filter_append, List.map_append]
  by_cases h : isCandidatePosition m n
  · simp [h]
  · simp [h]

/-- After `n` iterations the columns of the candidates are those of the
candidate positions below `n`, in order. -/
theorem fixLoop_candidateColumns (m : FixInput) :
    ∀ n : Nat, candidateColumns (fixLoop m n) = (expectedColumns m n).map some := by
  intro n
  induction n with
  | zero => rfl
  | succ n ih =>
    simp only [fixLoop]
    rw [expectedColumns_succ]
    by_cases h : isCandidatePosition m n
    · obtain ⟨x, hx⟩ := (fixStep_candidate m n (fixLoop m n)).1 h
      rw [hx, candidateColumns_emit, ih, if_pos h]
      simp
    · rw [(fixStep_candidate m n (fixLoop m n)).2 h, ih, if_neg h]

/-- C17: the columns `candidate[0].var, ..., candidate[cnt - 1].var` left by
`fixOtherVariables` are the columns `integerVariable[i]` of exactly the positions
`i < numberIntegers` that hold a free heuristic integer matching one of the three
scoring branches, in the order of the positions and once per position; they are a
subsequence of `integerVariable[0 .. numberIntegers - 1]`, and the count is their
number. -/
theorem c17_candidates_in_index_order (m : FixInput) :
    candidateColumns (fixOtherVariables m)
        = (((List.range m.numberIntegers).filter
            fun i => decide (isCandidatePosition m i)).map m.integerVariable).map some ∧
      (fixOtherVariables m).cnt
        = ((List.range m.numberIntegers).filter
            fun i => decide (isCandidatePosition m i)).length ∧
      List.Sublist
        (((List.range m.numberIntegers).filter
            fun i => decide (isCandidatePosition m i)).map m.integerVariable)
        ((List.range m.numberIntegers).map m.integerVariable) := by
  have h := fixLoop_candidateColumns m m.numberIntegers
  refine ⟨h, ?_, List.Sublist.map _ (List.filter_sublist _)⟩
  have hl := congrArg List.length h
  simpa [candidateColumns, expectedColumns, fixOtherVariables] using hl

/-- C17 at three variables of which the first is fixed: the candidates are the
columns 1 and 2, in this order. -/
theorem c17_witness :
    candidateColumns (fixOtherVariables oneFixedOneFree) = [some 1, some 2] :=
  (c17_candidates_in_index_order oneFixedOneFree).1.trans (by decide!)

/-! ## The selection without priority array -/

theorem competitiveAt_true (m : SelectInput) (j : Nat) :
    competitiveAt m true j ↔ fractionalAt m j := by
  simp [competitiveAt]

theorem competitiveAt_false (m : SelectInput) (j : Nat) :
    competitiveAt m false j ↔ lockedFractionalAt m j := by
  simp [competitiveAt]

theorem competitiveAt_fractional (m : SelectInput) (a : Bool) (j : Nat)
    (h : competitiveAt m a j) : fractionalAt m j := by
  cases a with
  | true => exact (competitiveAt_true m j).mp h
  | false => exact ((competitiveAt_false m j).mp h).1

theorem isFirstMaximiser_keep (m : SelectInput) (a : Bool) (n i : Nat)
    (h : isFirstMaximiser m a n i)
    (hn : competitiveAt m a n → scoreAt m n a ≤ scoreAt m i a) :
    isFirstMaximiser m a (n + 1) i := by
  obtain ⟨h1, h2, h3, h4⟩ := h
  refine ⟨Nat.lt_succ_of_lt h1, h2, ?_, h4⟩
  intro j hj hc
  rcases Nat.lt_succ_iff_lt_or_eq.mp hj with hlt | heq
  · exact h3 j hlt hc
  · subst heq; exact hn hc

theorem isFirstMaximiser_new (m : SelectInput) (a : Bool) (n : Nat)
    (hc : competitiveAt m a n)
    (hlt : ∀ j, j < n → competitiveAt m a j → scoreAt m j a < scoreAt m n a) :
    isFirstMaximiser m a (n + 1) n := by
  refine ⟨Nat.lt_succ_self n, hc, ?_, hlt⟩
  intro j hj hcj
  rcases Nat.lt_succ_iff_lt_or_eq.mp hj with h | h
  · exact le_of_lt (hlt j h hcj)
  · subst h; exact le_refl _

/-- A position that is not competitive leaves the invariant. -/
theorem bestIsFirstMaximiser_skip (m : SelectInput) (n : Nat) (st : SelectState)
    (h : bestIsFirstMaximiser m n st)
    (hc : ¬ competitiveAt m st.allTriviallyRoundableSoFar n) :
    bestIsFirstMaximiser m (n + 1) st := by
  rcases h with ⟨f, b, c, r, hnone⟩ | ⟨i, hmax, c, r, b⟩
  · refine Or.inl ⟨f, b, c, r, fun j hj => ?_⟩
    rcases Nat.lt_succ_iff_lt_or_eq.mp hj with hlt | heq
    · exact hnone j hlt
    · subst heq
      rw [f] at hc
      exact fun hfr => hc ((competitiveAt_true m j).mpr hfr)
  · exact Or.inr ⟨i, isFirstMaximiser_keep m _ n i hmax (fun h => absurd h hc), c, r, b⟩

/-- Lines 145-149 without priority array, at a competitive position: the strict
comparison keeps the first-index maximiser. -/
theorem bestIsFirstMaximiser_update (m : SelectInput) (n : Nat) (st : SelectState)
    (h : bestIsFirstMaximiser m n st)
    (hc : competitiveAt m st.allTriviallyRoundableSoFar n)
    (hs : 0 ≤ scoreAt m n st.allTriviallyRoundableSoFar) :
    bestIsFirstMaximiser m (n + 1)
      (updateBest none n (m.integerVariable n) (roundAt m n st.allTriviallyRoundableSoFar)
        (scoreAt m n st.allTriviallyRoundableSoFar) st) := by
  simp only [updateBest]
  rcases h with ⟨f, b, c, r, hnone⟩ | ⟨i, hmax, c, r, b⟩
  · rw [if_pos (by rw [b]; linarith)]
    refine Or.inr ⟨n, isFirstMaximiser_new m _ n hc (fun j hj hcj => ?_), rfl, rfl, rfl⟩
    exact absurd (competitiveAt_fractional m _ j hcj) (hnone j hj)
  · by_cases hgt : scoreAt m n st.allTriviallyRoundableSoFar > st.bestScore
    · rw [if_pos hgt]
      refine Or.inr ⟨n, isFirstMaximiser_new m _ n hc (fun j hj hcj => ?_), rfl, rfl, rfl⟩
      have h1 := hmax.2.2.1 j hj hcj
      rw [b] at hgt
      exact lt_of_le_of_lt h1 hgt
    · rw [if_neg hgt]
      refine Or.inr ⟨i, isFirstMaximiser_keep m _ n i hmax (fun _ => ?_), c, r, b⟩
      rw [b] at hgt
      exact not_lt.mp hgt

/-- Lines 96-99 and 145-149 without priority array, at the first variable locked
on both sides: it becomes the running best. -/
theorem bestIsFirstMaximiser_reset (m : SelectInput) (n : Nat) (st : SelectState)
    (hl : lockedFractionalAt m n) (hno : ∀ j, j < n → ¬ lockedFractionalAt m j)
    (hs : 0 ≤ scoreAt m n false) :
    bestIsFirstMaximiser m (n + 1)
      (updateBest none n (m.integerVariable n) (roundAt m n false) (scoreAt m n false)
        { st with allTriviallyRoundableSoFar := false, bestScore := -1 }) := by
  simp only [updateBest]
  rw [if_pos (by linarith)]
  refine Or.inr ⟨n, isFirstMaximiser_new m false n ((competitiveAt_false m n).mpr hl)
    (fun j hj hcj => ?_), rfl, rfl, rfl⟩
  exact absurd ((competitiveAt_false m j).mp hcj) (hno j hj)

/-- One iteration without priority array keeps the invariant. -/
theorem selectStep_bestIsFirstMaximiser (m : SelectInput) (hp : m.priority = none)
    (n : Nat) (st0 st : SelectState) (h : selectStep m n st0 = some st)
    (hinv : bestIsFirstMaximiser m n st0)
    (hflag : st0.allTriviallyRoundableSoFar = false ↔ ∃ i, i < n ∧ lockedFractionalAt m i) :
    bestIsFirstMaximiser m (n + 1) st := by
  simp only [selectStep, hp] at h
  split_ifs at h with h1 h2 h3 h4
  · cases h
    refine bestIsFirstMaximiser_skip m n st0 hinv (fun hc => ?_)
    have := (competitiveAt_fractional m _ n hc).1
    rw [h1] at this
    cases this
  · cases h
    have hfr : fractionalAt m n := ⟨by simpa using h1, h2⟩
    by_cases hl : m.downLocks n > 0 ∧ m.upLocks n > 0
    · cases hf : st0.allTriviallyRoundableSoFar with
      | false =>
        have hreset : resetOnLocked (m.downLocks n) (m.upLocks n) st0 = st0 := by
          simp [resetOnLocked, hf]
        have key := bestIsFirstMaximiser_update m n st0 hinv
          (by rw [hf]; exact (competitiveAt_false m n).mpr ⟨hfr, hl⟩)
          (scoreAt_nonneg m n _ h4)
        rw [hf] at key
        rw [hreset, hf]
        exact key
      | true =>
        have hreset : resetOnLocked (m.downLocks n) (m.upLocks n) st0
            = { st0 with allTriviallyRoundableSoFar := false, bestScore := -1 } := by
          simp [resetOnLocked, hf, hl.1, hl.2]
        have hno : ∀ j, j < n → ¬ lockedFractionalAt m j := by
          intro j hj hlj
          have := hflag.mpr ⟨j, hj, hlj⟩
          rw [hf] at this
          cases this
        rw [hreset]
        exact bestIsFirstMaximiser_reset m n st0 ⟨hfr, hl⟩ hno (scoreAt_nonneg m n _ h4)
    · have hf : st0.allTriviallyRoundableSoFar = true := by
        rcases h3 with h3 | h3
        · exact h3
        · exact absurd h3 hl
      have hreset : resetOnLocked (m.downLocks n) (m.upLocks n) st0 = st0 := by
        unfold resetOnLocked
        rw [if_neg (fun hc => hl hc.2)]
      have key := bestIsFirstMaximiser_update m n st0 hinv
        (by rw [hf]; exact (competitiveAt_true m n).mpr hfr) (scoreAt_nonneg m n _ h4)
      rw [hf] at key
      rw [hreset, hf]
      exact key
  · cases h
    refine bestIsFirstMaximiser_skip m n st0 hinv (fun hc => ?_)
    have hf : st0.allTriviallyRoundableSoFar = false := by
      by_contra h6; exact h3 (Or.inl (by simpa using h6))
    rw [hf] at hc
    exact h3 (Or.inr ((competitiveAt_false m n).mp hc).2)
  · cases h
    exact bestIsFirstMaximiser_skip m n st0 hinv
      (fun hc => h2 (competitiveAt_fractional m _ n hc).2)

/-- Without priority array the running best is the first-index maximiser after
any number of iterations. -/
theorem selectLoop_bestIsFirstMaximiser (m : SelectInput) (hp : m.priority = none) :
    ∀ (n : Nat) (st : SelectState), selectLoop m n = some st →
      bestIsFirstMaximiser m n st := by
  intro n
  induction n with
  | zero =>
    intro st h
    simp only [selectLoop, Option.some.injEq] at h
    subst h
    exact Or.inl ⟨rfl, rfl, rfl, rfl, fun j hj => absurd hj (Nat.not_lt_zero j)⟩
  | succ n ih =>
    intro st h
    simp only [selectLoop] at h
    cases hn : selectLoop m n with
    | none => simp [hn] at h
    | some st0 =>
      rw [hn] at h
      simp only [Option.some_bind] at h
      exact selectStep_bestIsFirstMaximiser m hp n st0 st h (ih st0 hn)
        (selectLoop_allTrivial_false m n st0 hn)

theorem cascadeRound_values (a : Bool) (d u : Nat) (v rv f pd pu : ℚ) :
    cascadeRound a d u v rv f pd pu = -1 ∨ cascadeRound a d u v rv f pd pu = 1 := by
  unfold cascadeRound
  split_ifs
  all_goals first
    | exact Or.inl rfl
    | exact Or.inr rfl

/-- C15: with no priority array and non-negative pseudo-costs,
`selectVariableToBranch` returns, and when the competitive set (all fractional
heuristic integers if the returned flag is true, those with locks on both sides
if it is false) is not empty, the returned `bestColumn` is the column of its
first-index maximiser of the score: no competitive position has a larger score,
every competitive position before it has a strictly smaller one, and `bestRound`
is the cascade direction of that position. With an empty competitive set the
returned best is the sentinel -1, -1. -/
theorem c15_returns_first_index_maximiser (m : SelectInput) (hp : m.priority = none)
    (hn : nonNegCosts m m.numberIntegers) :
    ∃ r, selectVariableToBranch m = some r ∧
      ((∃ j, j < m.numberIntegers ∧ competitiveAt m r.allTriviallyRoundable j) →
        ∃ i, isFirstMaximiser m r.allTriviallyRoundable m.numberIntegers i ∧
          r.bestColumn = m.integerVariable i ∧
          r.bestRound = roundAt m i r.allTriviallyRoundable) ∧
      ((¬ ∃ j, j < m.numberIntegers ∧ competitiveAt m r.allTriviallyRoundable j) →
        r.bestColumn = -1 ∧ r.bestRound = -1 ∧ r.allTriviallyRoundable = true) := by
  obtain ⟨r, hr⟩ := selectVariableToBranch_isSome m hn
  obtain ⟨st, hst, hc, hrd, hflag⟩ := selectVariableToBranch_eq_some m r hr
  refine ⟨r, hr, ?_, ?_⟩
  · intro hex
    rw [hflag] at hex ⊢
    rcases selectLoop_bestIsFirstMaximiser m hp m.numberIntegers st hst with
      ⟨f, -, -, -, hnone⟩ | ⟨i, hmax, c, rd, -⟩
    · obtain ⟨j, hj, hcj⟩ := hex
      exact absurd (competitiveAt_fractional m _ j hcj) (hnone j hj)
    · exact ⟨i, hmax, hc.trans c, hrd.trans rd⟩
  · intro hno
    rw [hflag] at hno ⊢
    rcases selectLoop_bestIsFirstMaximiser m hp m.numberIntegers st hst with
      ⟨f, -, c, rd, -⟩ | ⟨i, hmax, -, -, -⟩
    · exact ⟨hc.trans c, hrd.trans rd, f⟩
    · exact absurd ⟨i, hmax.1, hmax.2.1⟩ hno

/-- C15 at three variables of which the two locked ones tie at the score 0.8:
the first of them, column 1, is returned, rounded up. -/
theorem c15_witness :
    selectVariableToBranch tiedScores
        = some { bestColumn := 1, bestRound := 1, allTriviallyRoundable := false } ∧
      scoreAt tiedScores 1 false = scoreAt tiedScores 2 false ∧
      ∃ i, isFirstMaximiser tiedScores false tiedScores.numberIntegers i ∧
        (1 : Int) = tiedScores.integerVariable i ∧ (1 : Int) = roundAt tiedScores i false := by
  have he : selectVariableToBranch tiedScores
      = some { bestColumn := 1, bestRound := 1, allTriviallyRoundable := false } := by decide!
  obtain ⟨r, hr, h1, -⟩ := c15_returns_first_index_maximiser tiedScores rfl
    (fun _ _ => ⟨le_refl _, le_refl _⟩)
  rw [he] at hr
  cases hr
  exact ⟨he, by decide!, h1 ⟨1, by decide, by decide!⟩⟩

/-- C18: with no priority array, non-negative pseudo-costs and column numbers
that are not negative, if some heuristic integer is fractional beyond the
tolerance then `selectVariableToBranch` returns with `bestColumn` different
from -1 and equal to the column of one of the fractional variables, and with
`bestRound` equal to -1 or +1. -/
theorem c18_fractional_variable_is_selected (m : SelectInput) (hp : m.priority = none)
    (hn : nonNegCosts m m.numberIntegers)
    (hcol : ∀ i, i < m.numberIntegers → 0 ≤ m.integerVariable i)
    (hex : ∃ i, i < m.numberIntegers ∧ fractionalAt m i) :
    ∃ r, selectVariableToBranch m = some r ∧ r.bestColumn ≠ -1 ∧
      (∃ i, i < m.numberIntegers ∧ fractionalAt m i ∧ r.bestColumn = m.integerVariable i) ∧
      (r.bestRound = -1 ∨ r.bestRound = 1) := by
  obtain ⟨r, hr⟩ := selectVariableToBranch_isSome m hn
  obtain ⟨st, hst, hc, hrd, -⟩ := selectVariableToBranch_eq_some m r hr
  refine ⟨r, hr, ?_⟩
  rcases selectLoop_bestIsFirstMaximiser m hp m.numberIntegers st hst with
    ⟨-, -, -, -, hnone⟩ | ⟨i, hmax, c, rd, -⟩
  · obtain ⟨j, hj, hfj⟩ := hex
    exact absurd hfj (hnone j hj)
  · have hcol_i := hcol i hmax.1
    refine ⟨?_, ⟨i, hmax.1, competitiveAt_fractional m _ i hmax.2.1, hc.trans c⟩, ?_⟩
    · rw [hc, c]
      omega
    · rw [hrd, rd]
      exact cascadeRound_values _ _ _ _ _ _ _ _

/-- C18 at the scenario A, B, whose two variables are fractional: the column 1
of B is returned with the round +1. -/
theorem c18_witness :
    ∃ r, selectVariableToBranch scenarioAB = some r ∧ r.bestColumn ≠ -1 ∧
      (∃ i, i < scenarioAB.numberIntegers ∧ fractionalAt scenarioAB i ∧
        r.bestColumn = scenarioAB.integerVariable i) ∧
      (r.bestRound = -1 ∨ r.bestRound = 1) :=
  c18_fractional_variable_is_selected scenarioAB rfl (by decide!) (by decide!)
    ⟨0, by decide, by decide!⟩

/-! ## The score in double arithmetic -/

theorem roundHalfEven_bounds (t : ℚ) :
    Int.floor t ≤ roundHalfEven t ∧ roundHalfEven t ≤ Int.floor t + 1 := by
  unfold roundHalfEven
  split_ifs <;> constructor <;> omega

theorem roundHalfEven_mono {t s : ℚ} (h : t ≤ s) : roundHalfEven t ≤ roundHalfEven s := by
  have hfl : Int.floor t ≤ Int.floor s := Int.floor_mono h
  rcases lt_or_eq_of_le hfl with hlt | heq
  · exact le_trans (roundHalfEven_bounds t).2 (le_trans hlt (roundHalfEven_bounds s).1)
  · unfold roundHalfEven
    rw [← heq]
    split_ifs <;> first | omega | (exfalso; linarith)

theorem roundHalfEven_intCast (n : Int) : roundHalfEven (n : ℚ) = n := by
  unfold roundHalfEven
  simp

theorem two_zpow_pos (e : Int) : (0 : ℚ) < 2 ^ e := zpow_pos (by norm_num) e

theorem two_zpow_mul_ulp (q : ℚ) (k : Int) :
    (2 : ℚ) ^ k * 2 ^ (Int.log 2 q - 52) = 2 ^ (Int.log 2 q + (k - 52)) := by
  rw [← zpow_add₀ (by norm_num : (2 : ℚ) ≠ 0)]
  congr 1
  omega

/-- Divided by its unit in the last place, a positive number lies in
`[2 ^ 52, 2 ^ 53)`. -/
theorem scaled_bounds (q : ℚ) (hq : 0 < q) :
    (2 : ℚ) ^ (52 : Int) ≤ q / 2 ^ (Int.log 2 q - 52) ∧
      q / 2 ^ (Int.log 2 q - 52) < (2 : ℚ) ^ (53 : Int) := by
  have hu := two_zpow_pos (Int.log 2 q - 52)
  have h1 : ((2 : ℕ) : ℚ) ^ Int.log 2 q ≤ q := Int.zpow_log_le_self (by norm_num) hq
  have h2 : q < ((2 : ℕ) : ℚ) ^ (Int.log 2 q + 1) := Int.lt_zpow_succ_log_self (by norm_num) q
  simp only [Nat.cast_ofNat] at h1 h2
  constructor
  · rw [le_div_iff₀ hu, two_zpow_mul_ulp]
    simpa using h1
  · rw [div_lt_iff₀ hu, two_zpow_mul_ulp]
    simpa using h2

theorem roundToDouble_of_pos (q : ℚ) (hq : 0 < q) :
    roundToDouble q
      = (roundHalfEven (q / 2 ^ (Int.log 2 q - 52)) : ℚ) * 2 ^ (Int.log 2 q - 52) := by
  unfold roundToDouble
  rw [if_neg (ne_of_gt hq), if_neg (not_lt.mpr (le_of_lt hq))]

/-- A positive number is rounded within the closed binade it lies in. -/
theorem roundToDouble_binade (q : ℚ) (hq : 0 < q) :
    (2 : ℚ) ^ Int.log 2 q ≤ roundToDouble q ∧ roundToDouble q ≤ 2 ^ (Int.log 2 q + 1) := by
  obtain ⟨b1, b2⟩ := scaled_bounds q hq
  have hu := two_zpow_pos (Int.log 2 q - 52)
  have r1 : ((2 ^ 52 : Int) : ℚ) ≤ (roundHalfEven (q / 2 ^ (Int.log 2 q - 52)) : ℚ) := by
    have h := roundHalfEven_mono (t := ((2 ^ 52 : Int) : ℚ)) (by push_cast; exact_mod_cast b1)
    rw [roundHalfEven_intCast] at h
    exact_mod_cast h
  have r2 : (roundHalfEven (q / 2 ^ (Int.log 2 q - 52)) : ℚ) ≤ ((2 ^ 53 : Int) : ℚ) := by
    have h := roundHalfEven_mono (s := ((2 ^ 53 : Int) : ℚ))
      (by push_cast; exact_mod_cast le_of_lt b2)
    rw [roundHalfEven_intCast] at h
    exact_mod_cast h
  have e1 := two_zpow_mul_ulp q 52
  have e2 := two_zpow_mul_ulp q 53
  simp only [sub_self, add_zero] at e1
  norm_num at e2
  rw [roundToDouble_of_pos q hq, ← e1, ← e2]
  constructor
  · exact mul_le_mul_of_nonneg_right (by push_cast at r1; exact_mod_cast r1) (le_of_lt hu)
  · exact mul_le_mul_of_nonneg_right (by push_cast at r2; exact_mod_cast r2) (le_of_lt hu)

theorem roundToDouble_zero : roundToDouble 0 = 0 := by
  simp [roundToDouble]

theorem roundToDouble_nonneg (q : ℚ) (hq : 0 ≤ q) : 0 ≤ roundToDouble q := by
  rcases eq_or_lt_of_le hq with h | h
  · rw [← h, roundToDouble_zero]
  · exact le_trans (le_of_lt (two_zpow_pos _)) (roundToDouble_binade q h).1

/-- Rounding to the nearest double is monotone on the non-negative numbers. -/
theorem roundToDouble_mono (x y : ℚ) (hx : 0 ≤ x) (h : x ≤ y) :
    roundToDouble x ≤ roundToDouble y := by
  rcases eq_or_lt_of_le hx with h0 | hpos
  · rw [← h0, roundToDouble_zero]
    exact roundToDouble_nonneg y (le_trans hx h)
  · have hy : 0 < y := lt_of_lt_of_le hpos h
    have hlog : Int.log 2 x ≤ Int.log 2 y := Int.log_mono_right hpos h
    rcases lt_or_eq_of_le hlog with hlt | heq
    · have h3 : (2 : ℚ) ^ (Int.log 2 x + 1) ≤ 2 ^ Int.log 2 y :=
        zpow_le_zpow_right₀ (by norm_num) (by omega)
      exact le_trans (roundToDouble_binade x hpos).2
        (le_trans h3 (roundToDouble_binade y hy).1)
    · rw [roundToDouble_of_pos x hpos, roundToDouble_of_pos y hy, heq]
      have hu := two_zpow_pos (Int.log 2 y - 52)
      apply mul_le_mul_of_nonneg_right _ (le_of_lt hu)
      have hm := roundHalfEven_mono (div_le_div_of_nonneg_right h (le_of_lt hu))
      exact_mod_cast hm

theorem roundToDouble_one : roundToDouble 1 = 1 := by decide!

/-- In double arithmetic the round-up score does not decrease when the down
pseudo-cost grows. -/
theorem scoreOfDouble_up_mono (f d1 d2 up : ℚ) (b : Bool)
    (hf : 0 ≤ f) (hu : 0 ≤ up) (hd1 : 0 ≤ d1) (hd : d1 ≤ d2) :
    scoreOfDouble 1 f d1 up b ≤ scoreOfDouble 1 f d2 up b := by
  have a0 : 0 ≤ roundToDouble (d1 + 1) := roundToDouble_nonneg _ (by linarith)
  have a1 : roundToDouble (d1 + 1) ≤ roundToDouble (d2 + 1) :=
    roundToDouble_mono _ _ (by linarith) (by linarith)
  have b0 : 0 ≤ roundToDouble (f * roundToDouble (d1 + 1)) :=
    roundToDouble_nonneg _ (mul_nonneg hf a0)
  have b1 : roundToDouble (f * roundToDouble (d1 + 1))
      ≤ roundToDouble (f * roundToDouble (d2 + 1)) :=
    roundToDouble_mono _ _ (mul_nonneg hf a0) (mul_le_mul_of_nonneg_left a1 hf)
  have c1 : 1 ≤ roundToDouble (up + 1) := by
    have h := roundToDouble_mono 1 (up + 1) (by norm_num) (by linarith)
    rwa [roundToDouble_one] at h
  have c0 : 0 ≤ roundToDouble (up + 1) := le_trans (by norm_num) c1
  have s0 : 0 ≤ roundToDouble (roundToDouble (f * roundToDouble (d1 + 1))
      / roundToDouble (up + 1)) :=
    roundToDouble_nonneg _ (div_nonneg b0 c0)
  have s1 : roundToDouble (roundToDouble (f * roundToDouble (d1 + 1))
        / roundToDouble (up + 1))
      ≤ roundToDouble (roundToDouble (f * roundToDouble (d2 + 1))
        / roundToDouble (up + 1)) :=
    roundToDouble_mono _ _ (div_nonneg b0 c0) (div_le_div_of_nonneg_right b1 c0)
  simp only [scoreOfDouble, if_true]
  split_ifs
  · exact roundToDouble_mono _ _ (mul_nonneg s0 (by norm_num))
      (mul_le_mul_of_nonneg_right s1 (by norm_num))
  · exact s1

theorem fractionOfDouble_nonneg (v : ℚ) : 0 ≤ fractionOfDouble v :=
  roundToDouble_nonneg _ (sub_nonneg.mpr (Int.floor_le v))

/-- C9, on the code's arithmetic: at one variable with fraction 0.75, up
pseudo-cost 1 and direction up, raising the down pseudo-cost from 1 to the next
binary64 number `1 + 2 ^ -52` keeps the direction up and leaves the score at
0.75: `pCostDown + 1.0` is 2.0 for both, so the score does not strictly
increase. -/
theorem c9_increase_absorbed_by_rounding :
    0 < fractionOfDouble (dyadicInput.newSolution (dyadicInput.integerVariable 0)) ∧
      0 ≤ dyadicInput.upArray 0 ∧ 0 ≤ dyadicInput.downArray 0 ∧
      dyadicInput.downArray 0 < 1 + 1 / 2 ^ 52 ∧
      roundToDouble (1 + 1 / 2 ^ 52) = 1 + 1 / 2 ^ 52 ∧
      roundAtDouble dyadicInput 0 false = 1 ∧
      roundAtDouble
          { dyadicInput with
            downArray := Function.update dyadicInput.downArray 0 (1 + 1 / 2 ^ 52) }
          0 false = 1 ∧
      scoreAtDouble dyadicInput 0 false = 3 / 4 ∧
      scoreAtDouble
          { dyadicInput with
            downArray := Function.update dyadicInput.downArray 0 (1 + 1 / 2 ^ 52) }
          0 false = 3 / 4 ∧
      ¬ (scoreAtDouble dyadicInput 0 false
          < scoreAtDouble
              { dyadicInput with
                downArray := Function.update dyadicInput.downArray 0 (1 + 1 / 2 ^ 52) }
              0 false) :=
  ⟨by decide!, by decide!, by decide!, by decide!, by decide!, by decide!, by decide!,
    by decide!, by decide!, by decide!⟩

/-- C9, amended: in the double arithmetic of the code, when the cascade rounds
the variable at position `i` up, its up pseudo-cost and its down pseudo-cost
`d1` are non-negative, replacing `d1` by any `d2 > d1` keeps the direction up and
does not decrease the score `fraction * (down + 1) / (up + 1)` (times 1000 for a
binary). -/
theorem c9_round_up_score_does_not_decrease_with_down_cost (m : SelectInput) (i : Nat)
    (allTrivial : Bool) (d2 : ℚ)
    (hu : 0 ≤ m.upArray i) (hd1 : 0 ≤ m.downArray i) (hd : m.downArray i < d2)
    (hr : roundAtDouble m i allTrivial = 1) :
    roundAtDouble { m with downArray := Function.update m.downArray i d2 } i allTrivial = 1 ∧
      scoreAtDouble m i allTrivial
        ≤ scoreAtDouble { m with downArray := Function.update m.downArray i d2 } i
            allTrivial := by
  have hr2 : roundAtDouble { m with downArray := Function.update m.downArray i d2 } i
      allTrivial = 1 := by
    simp only [roundAtDouble, cascadeRoundDouble, Function.update_same] at hr ⊢
    split_ifs at hr ⊢ with h1 h2 h3 h4 h5 h6 h7 h8
    all_goals first
      | rfl
      | (exfalso; linarith)
  refine ⟨hr2, ?_⟩
  simp only [scoreAtDouble, hr, hr2, Function.update_same]
  exact scoreOfDouble_up_mono _ _ _ _ _ (fractionOfDouble_nonneg _) hu hd1 (le_of_lt hd)

/-- C9, amended, at the same variable with the down pseudo-cost raised from 1 to
3: the direction stays up and the score goes from 0.75 to 1.5. -/
theorem c9_witness :
    scoreAtDouble dyadicInput 0 false = 3 / 4 ∧
      scoreAtDouble
          { dyadicInput with downArray := Function.update dyadicInput.downArray 0 3 }
          0 false = 3 / 2 ∧
      (roundAtDouble
            { dyadicInput with downArray := Function.update dyadicInput.downArray 0 3 }
            0 false = 1 ∧
        scoreAtDouble dyadicInput 0 false
          ≤ scoreAtDouble
              { dyadicInput with downArray := Function.update dyadicInput.downArray 0 3 }
              0 false) :=
  ⟨by decide!, by decide!,
    c9_round_up_score_does_not_decrease_with_down_cost dyadicInput 0 false 3 (by decide!)
      (by decide!) (by decide!) (by decide!)⟩

end CbcHeuristicDivePseudoCost
